import Mathlib

/-!
Verification of the RAG orchestration core of the Team-Fireflight chatbot.

The Lean definitions below are a shallow embedding of the Python sources:
  * `Spoon.*`   embeds `app/services/spoon_graph_service.py`
  * `Rag.*`     embeds the `generate_response` retry protocol of
                `app/services/rag_graph_service.py`
  * `Chroma.*`  embeds `delete_documents_by_metadata` of
                `app/services/retrieval/custom_chroma.py`

External collaborators (the LLM manager, the MCP tools, ChromaDB, `json.loads`
together with the regex fence stripping, `random.uniform`) are modelled as
oracle parameters carried in environment records; all decision logic of the
repository itself is translated directly.  Python floats are modelled as `ℚ`,
`None`-able values as `Option`, raised exceptions as explicit error branches.
Python's insertion-ordered `dict` is modelled by association lists in first
insertion order, and Python's stable `sorted` by a stable insertion sort.
-/

namespace PyStr

/-!
Python string primitives, re-implemented structurally over the character list
(the corresponding `String` library functions are extensionally equal but are
defined by well-founded recursion, which the kernel cannot evaluate on
concrete inputs).
-/

/-- `s.lower()`. -/
def lower (s : String) : String := ⟨s.data.map Char.toLower⟩

/-- Whitespace-trimmed character list (`str.strip()`). -/
def trimChars (l : List Char) : List Char :=
  ((l.dropWhile Char.isWhitespace).reverse.dropWhile Char.isWhitespace).reverse

/-- `s.strip()`. -/
def trim (s : String) : String := ⟨trimChars s.data⟩

/-- Split a character list at every character satisfying `p` (empty fields
kept, as in Python `str.split(sep)`). -/
def splitPred (p : Char → Bool) : List Char → List (List Char)
  | [] => [[]]
  | c :: rest =>
    let r := splitPred p rest
    if p c then [] :: r else (c :: r.headD []) :: r.tailD []

/-- `s.split(sep)` for a one-character separator. -/
def splitOn (sep : Char) (s : String) : List String :=
  (splitPred (fun c => c = sep) s.data).map (fun l => ⟨l⟩)

/-- `len(s.split())`: whitespace-run fields, empty fields dropped. -/
def wordCount (s : String) : Nat :=
  (((splitPred Char.isWhitespace s.data).map (fun l => (⟨l⟩ : String))).filter
    (fun w => w ≠ "")).length

/-- `s[:n]`. -/
def take (s : String) (n : Nat) : String := ⟨s.data.take n⟩

/-- `sep.join(xs)`. -/
def join (sep : String) : List String → String
  | [] => ""
  | [x] => x
  | x :: y :: rest => x ++ sep ++ join sep (y :: rest)

/-- `pat in s` on character lists. -/
def subLst (pat : List Char) : List Char → Bool
  | [] => pat.isEmpty
  | c :: rest => pat.isPrefixOf (c :: rest) || subLst pat rest

/-- Python `pat in s` substring containment. -/
def containsSub (s pat : String) : Bool := subLst pat.data s.data

end PyStr

namespace Spoon

/-- Python string truthiness: `a or default` where both `None` and `""` are
falsy.  Used for every `meta.get(k) or ...` chain in the source. -/
def pyGetOr (o : Option String) (d : String) : String :=
  match o with
  | some s => if s = "" then d else s
  | none => d

/-- `value or ""` truthiness test for an optional string. -/
def truthy (o : Option String) : Bool :=
  match o with
  | some s => s ≠ ""
  | none => false

/-- Metadata map of one evidence item.  The source accesses exactly these keys;
`distance` models `meta.get("distance")` restricted by the
`isinstance(distance, (int, float))` numeric check (a present non-numeric
distance behaves like an absent one, hence `Option ℚ`). -/
structure Meta where
  document_type : Option String := none
  retrieval_tool : Option String := none
  distance : Option ℚ := none
  filename : Option String := none
  source : Option String := none
  «section» : Option String := none
  heading : Option String := none
  deriving DecidableEq, Repr

/-- One evidence item: `{"content": ..., "metadata": {...}}`. -/
structure Item where
  content : String
  metadata : Meta
  deriving DecidableEq, Repr

/-- `_distance_key`: the sort key, `float("inf")` for a missing numeric
distance is modelled by `⊤` in `WithTop ℚ`. -/
def distance_key (it : Item) : WithTop ℚ :=
  match it.metadata.distance with
  | some q => (q : WithTop ℚ)
  | none => ⊤

/-- Stable insertion used to model Python's stable `sorted(..., key=...)`:
an element is inserted after exactly the earlier elements with a strictly
smaller key, so elements with equal keys keep their original order. -/
def insertItem (x : Item) : List Item → List Item
  | [] => [x]
  | y :: ys => if distance_key y < distance_key x then y :: insertItem x ys else x :: y :: ys

/-- `sorted(evidence, key=self._distance_key)` (Timsort is stable; any stable
sort by the same key is extensionally equal, so we model it by a stable
insertion sort). -/
def sortByDistance (l : List Item) : List Item :=
  l.foldr insertItem []

/-- Bucket key of an item:
`meta.get("document_type") or meta.get("retrieval_tool") or "other"`. -/
def bucket_key (it : Item) : String :=
  pyGetOr it.metadata.document_type (pyGetOr it.metadata.retrieval_tool "other")

/-- Number of items of a list falling in bucket `k`. -/
def countKey (k : String) (l : List Item) : Nat :=
  (l.filter (fun x => bucket_key x = k)).length

/-- Insertion-ordered key set: models the iteration order of a Python `dict`
built by repeated `setdefault`/membership-guarded appends. -/
def insKeys (acc : List String) : List String → List String
  | [] => acc
  | k :: ks => insKeys (if k ∈ acc then acc else acc ++ [k]) ks

/-- The keys of `buckets` in first-encounter order. -/
def bucketKeys (ev : List Item) : List String :=
  insKeys [] (ev.map bucket_key)

/-- `buckets`: partition of the evidence by bucket key, with the Python dict's
insertion order (first-encounter key order, items of one bucket in encounter
order). -/
def buckets_of (ev : List Item) : List (String × List Item) :=
  (bucketKeys ev).map (fun k => (k, ev.filter (fun x => bucket_key x = k)))

/-- `buckets.get(key)` (an absent key behaves like an empty bucket; the code
guards every access with `if bucket:`). -/
def lookupB (bs : List (String × List Item)) (k : String) : List Item :=
  match bs with
  | [] => []
  | (k', b) :: rest => if k' = k then b else lookupB rest k

/-- In-place replacement of one bucket's list (models `bucket.pop(0)` side
effects on the dict entry). -/
def updateB (bs : List (String × List Item)) (k : String) (nb : List Item) :
    List (String × List Item) :=
  match bs with
  | [] => []
  | (k', b) :: rest => if k' = k then (k', nb) :: rest else (k', b) :: updateB rest k nb

/-- `tool_to_doc.get(tool)` of `_prioritize_evidence`. -/
def tool_to_doc (tool : String) : Option String :=
  if tool = "policy_txt_lookup" then some "policy"
  else if tool = "ops_txt_lookup" then some "ops"
  else none

/-- First loop building `ordering`: planned tools mapped to their document
types, deduplicated in order. -/
def toolOrdering (acc : List String) : List String → List String
  | [] => acc
  | t :: ts =>
    match tool_to_doc t with
    | some d => toolOrdering (if d ∈ acc then acc else acc ++ [d]) ts
    | none => toolOrdering acc ts

/-- `ordering` of `_prioritize_evidence`: planned-tool document types first,
then every bucket key not yet present, in encounter order. -/
def ordering_of (tool_calls : List String) (keys : List String) : List String :=
  insKeys (toolOrdering [] tool_calls) keys

/-- Inner loop of the first pass: take up to `n` items off the front of `xs`
onto `acc`, stopping as soon as `acc` reaches the `cap`. -/
def take_chunk (cap : Nat) : Nat → List Item → List Item → List Item × List Item
  | 0, acc, xs => (acc, xs)
  | n + 1, acc, xs =>
    if cap ≤ acc.length then (acc, xs)
    else
      match xs with
      | [] => (acc, [])
      | x :: rest => take_chunk cap n (acc ++ [x]) rest

/-- First pass of `_prioritize_evidence`: for each key in order take at most
`min minPer (len bucket)` items, breaking out once the cap is reached. -/
def first_pass (cap minPer : Nat) :
    List String → List (String × List Item) → List Item →
    List Item × List (String × List Item)
  | [], bs, acc => (acc, bs)
  | k :: ks, bs, acc =>
    let b := lookupB bs k
    let res := if b.isEmpty then (acc, b) else take_chunk cap (min minPer b.length) acc b
    let bs' := updateB bs k res.2
    if cap ≤ res.1.length then (res.1, bs') else first_pass cap minPer ks bs' res.1

/-- One sweep of the round-robin second pass: pop the head of every non-empty
bucket (in `ordering` order) while below the cap; the flag records whether
anything was appended. -/
def rr_once (cap : Nat) :
    List String → List (String × List Item) → List Item → Bool →
    List (String × List Item) × List Item × Bool
  | [], bs, acc, added => (bs, acc, added)
  | k :: ks, bs, acc, added =>
    match lookupB bs k with
    | [] => rr_once cap ks bs acc added
    | x :: rest =>
      if acc.length < cap then rr_once cap ks (updateB bs k rest) (acc ++ [x]) true
      else rr_once cap ks bs acc added

/-- Total number of items remaining in the buckets (termination measure of the
`while` loop). -/
def bucketsSize (bs : List (String × List Item)) : Nat :=
  (bs.map (fun p => p.2.length)).sum

theorem lookupB_updateB_size {bs : List (String × List Item)} {k : String}
    {x : Item} {rest : List Item} (h : lookupB bs k = x :: rest) :
    bucketsSize (updateB bs k rest) + 1 = bucketsSize bs := by
  induction bs with
  | nil => simp [lookupB] at h
  | cons p ps ih =>
    obtain ⟨k', b⟩ := p
    by_cases hk : k' = k
    · subst hk
      simp [lookupB] at h
      simp [updateB, bucketsSize, h]
      omega
    · simp [lookupB, hk] at h
      have := ih h
      simp [updateB, hk, bucketsSize] at this ⊢
      omega

theorem rr_once_size_le (cap : Nat) (ks : List String)
    (bs : List (String × List Item)) (acc : List Item) (added : Bool) :
    bucketsSize (rr_once cap ks bs acc added).1 ≤ bucketsSize bs := by
  induction ks generalizing bs acc added with
  | nil => simp [rr_once]
  | cons k ks ih =>
    rw [rr_once]
    cases hlk : lookupB bs k with
    | nil => exact ih bs acc added
    | cons x rest =>
      by_cases hc : acc.length < cap
      · simp only [if_pos hc]
        have h1 := ih (updateB bs k rest) (acc ++ [x]) true
        have h2 := lookupB_updateB_size hlk
        omega
      · simp only [if_neg hc]
        exact ih bs acc added

theorem rr_once_added_size (cap : Nat) (ks : List String)
    (bs : List (String × List Item)) (acc : List Item)
    (h : (rr_once cap ks bs acc false).2.2 = true) :
    bucketsSize (rr_once cap ks bs acc false).1 < bucketsSize bs := by
  induction ks generalizing bs acc with
  | nil => simp [rr_once] at h
  | cons k ks ih =>
    rw [rr_once] at h ⊢
    cases hlk : lookupB bs k with
    | nil =>
      rw [hlk] at h
      exact ih bs acc h
    | cons x rest =>
      rw [hlk] at h
      by_cases hc : acc.length < cap
      · simp only [if_pos hc] at h ⊢
        have h1 := rr_once_size_le cap ks (updateB bs k rest) (acc ++ [x]) true
        have h2 := lookupB_updateB_size hlk
        omega
      · simp only [if_neg hc] at h ⊢
        exact ih bs acc h

/-- Second pass of `_prioritize_evidence`: repeat `rr_once` sweeps until the
cap is reached or a sweep adds nothing. -/
def round_robin (cap : Nat) (ordering : List String)
    (bs : List (String × List Item)) (acc : List Item) : List Item :=
  if cap ≤ acc.length then acc
  else
    let r := rr_once cap ordering bs acc false
    if h : r.2.2 = true then round_robin cap ordering r.1 r.2.1 else r.2.1
termination_by bucketsSize bs
decreasing_by exact rr_once_added_size cap ordering bs acc h

/-- `SpoonGraphService._prioritize_evidence`. -/
def prioritize_evidence (evidence : List Item) (tool_calls : List String) :
    List Item :=
  if evidence = [] then evidence
  else if tool_calls.length ≤ 1 then sortByDistance evidence
  else
    let buckets := (buckets_of evidence).map (fun p => (p.1, sortByDistance p.2))
    let ordering := ordering_of tool_calls (buckets.map (fun p => p.1))
    let fp := first_pass 10 3 ordering buckets []
    round_robin 10 ordering fp.2 fp.1

/-- Filename and rendered line of one evidence item in
`_build_citation_section` (`idx` is the 1-based loop index used for the
default filename; the section is appended after `›` when present). -/
def citation_entry (idx : Nat) (it : Item) : String × String :=
  let m := it.metadata
  let filename := pyGetOr m.filename (pyGetOr m.source ("Tài liệu " ++ toString idx))
  let sec := pyGetOr m.«section» (pyGetOr m.heading "")
  (filename, if sec ≠ "" then "- " ++ filename ++ " › " ++ sec else "- " ++ filename)

/-- Loop body of `_build_citation_section` (scan items, dedup by filename,
stop at `limit` lines).  Each emitted line is kept together with the filename
it was emitted for. -/
def citation_go (limit : Nat) :
    List Item → Nat → List String → List (String × String) → List (String × String)
  | [], _, _, acc => acc
  | it :: rest, idx, seen, acc =>
    let e := citation_entry idx it
    if e.1 ∈ seen then citation_go limit rest (idx + 1) seen acc
    else
      let acc' := acc ++ [e]
      if limit ≤ acc'.length then acc'
      else citation_go limit rest (idx + 1) (seen ++ [e.1]) acc'

/-- The (filename, line) pairs emitted by `_build_citation_section`, which
scans only `evidence[:limit * 2]`, 1-based item numbering for the default
filename. -/
def citation_pairs (evidence : List Item) (limit : Nat) : List (String × String) :=
  citation_go limit (evidence.take (limit * 2)) 1 [] []

/-- `SpoonGraphService._build_citation_section`. -/
def build_citation_section (evidence : List Item) (limit : Nat := 2) : String :=
  let lines := (citation_pairs evidence limit).map (fun p => p.2)
  if lines = [] then "" else "\n\nNguồn:\n" ++ PyStr.join "\n" lines

/-- Lines of `_synthesize_response` built from `evidence[:2]` with 1-based
numbering; items whose stripped content is empty produce no line. -/
def synthLines : List Item → Nat → List String
  | [], _ => []
  | it :: rest, idx =>
    let filename := pyGetOr it.metadata.filename
      (pyGetOr it.metadata.source ("Tài liệu " ++ toString idx))
    let snippet := PyStr.trim it.content
    if snippet ≠ "" then ("- " ++ filename ++ ": " ++ snippet) :: synthLines rest (idx + 1)
    else synthLines rest (idx + 1)

/-- `SpoonGraphService._synthesize_response` (deterministic snippet answer). -/
def synthesize_response (user_query : String) (evidence : List Item)
    (intent : String) : Option String :=
  if evidence = [] then none
  else
    let category :=
      if intent = "policy" then "chính sách"
      else if intent = "ops" then "vận hành/kỹ thuật"
      else "tài liệu nội bộ"
    let lines := synthLines (evidence.take 2) 1
    if lines = [] then none
    else
      let extra :=
        if lines.length < evidence.length then
          "\n- (Các tài liệu khác cũng phù hợp, có thể đào sâu thêm nếu cần.)"
        else ""
      some ("Dựa trên tài liệu " ++ category ++ ", đây là thông tin liên quan đến “"
        ++ user_query ++ "”:\n" ++ PyStr.join "\n" lines ++ extra)

/-- One chat message handed to the LLM manager. -/
structure Msg where
  role : String
  content : String
  deriving DecidableEq, Repr

/-- One entry of the provider fallback chain.  The only keyword override the
service ever stores in `kwargs` is `model`, so `kwargs` is modelled by an
optional model name. -/
structure ProviderPreference where
  provider : Option String
  label : String
  model : Option String := none
  deriving DecidableEq, Repr

/-- Outcome of one `llm_manager.chat` call: a raised exception, or a response
object with its (nullable) `content` and `provider` attributes. -/
inductive ChatOutcome where
  | exn
  | ok (content : Option String) (provider : Option String)
  deriving DecidableEq, Repr

/-- Tool payload item as parsed from an MCP tool result
(`{"content"/"text": ..., "metadata": {...}}`). -/
structure RawItem where
  content : Option String := none
  text : Option String := none
  metadata : Option Meta := none
  deriving DecidableEq, Repr

/-- Parsed MCP tool payload (`{"results": [...], "document_type": ...}`). -/
structure ToolPayload where
  results : List RawItem := []
  document_type : Option String := none
  deriving DecidableEq, Repr

/-- Environment of external collaborators for `SpoonGraphService`:
deterministic oracles for the LLM manager, the JSON split parsing
(`re` fence stripping + `json.loads` of lines 229-249, library behaviour) and
the MCP tools (an `Except.error` covers both a missing tool and a raised
exception, which the source turns into the same `(tool, {}, error)` shape). -/
structure Env where
  enabled : Bool
  hasLLM : Bool
  chain : List ProviderPreference
  geminiModel : Option String
  chat : ProviderPreference → List Msg → ChatOutcome
  parseSplit : String → Option (Option String × Option String)
  toolExec : String → String → Nat → Bool → Except String ToolPayload

/-- `SpoonGraphService._default_llm_chain` (the `GEMINI_MODEL` setting is the
`geminiModel` oracle field; dedup is by lowercased model name). -/
def default_llm_chain (geminiModel : Option String) : List ProviderPreference :=
  let preferred := [geminiModel, some "gemini-2.0-flash", some "gemini-1.5-pro-latest"]
  let chain := go preferred []
  if chain = [] then [⟨some "gemini", "gemini-2.5-pro", none⟩] else chain
where
  go : List (Option String) → List String → List ProviderPreference
    | [], _ => []
    | none :: rest, seen => go rest seen
    | some m :: rest, seen =>
      if m = "" then go rest seen
      else if PyStr.lower m ∈ seen then go rest seen
      else ⟨some "gemini", m, some m⟩ :: go rest (seen ++ [PyStr.lower m])

/-- `providers = self.llm_provider_chain or self._default_llm_chain()`. -/
def effective_chain (env : Env) : List ProviderPreference :=
  if env.chain = [] then default_llm_chain env.geminiModel else env.chain

/-- The `for preference in providers` loop of `_call_llm`: an exception or
empty/absent content advances to the next preference; non-empty stripped
content returns together with the reported provider
(`response.provider or preference.label or provider_name or "default"`). -/
def call_chain (env : Env) (messages : List Msg) :
    List ProviderPreference → Option (String × String)
  | [] => none
  | pref :: rest =>
    match env.chat pref messages with
    | .exn => call_chain env messages rest
    | .ok content provider =>
      let c := PyStr.trim (content.getD "")
      if c = "" then call_chain env messages rest
      else some (c, pyGetOr provider (pyGetOr (some pref.label) (pyGetOr pref.provider "default")))

/-- `SpoonGraphService._call_llm`: `none` models the `(None, None)` return.
The `purpose` argument is only ever logged by the source. -/
def call_llm (env : Env) (messages : List Msg) (purpose : String) :
    Option (String × String) :=
  if env.hasLLM then call_chain env messages (effective_chain env) else none

def rewriteSystemPrompt : String :=
  "Bạn là trợ lý chuẩn hóa câu hỏi để thuận tiện cho việc tìm kiếm tài liệu nội bộ. Hãy diễn đạt lại câu hỏi ngắn gọn, đầy đủ ý chính, dùng từ khóa rõ ràng. Chỉ trả về câu hỏi đã chuẩn hóa."

def intentSystemPrompt : String :=
  "Bạn là bộ phân loại ý định. Hãy liệt kê TẤT CẢ các ý định thuộc các lớp sau, dùng dấu phẩy để ngăn cách:\n- policy: câu hỏi về chính sách, phúc lợi, nhân sự, remote work, nghỉ phép...\n- ops: câu hỏi về vận hành, kỹ thuật, deploy, quy trình backend...\nNếu câu hỏi thuộc cả hai nhóm, hãy trả về 'policy,ops'. Nếu không rõ, trả về 'ambiguous'."

def splitSystemPrompt : String :=
  "Bạn nhận vào một câu hỏi có thể chứa cả nội dung chính sách (policy) và nội dung vận hành/sự cố (ops). Hãy tách câu hỏi thành hai phần riêng biệt:\n- policy_query: phần liên quan đến chính sách, phúc lợi, nhân sự, nghỉ phép, remote work...\n- ops_query: phần liên quan đến vận hành, kỹ thuật, deploy, xử lý sự cố, runbook...\n\nNếu câu hỏi chỉ có một phần, để phần kia là chuỗi rỗng. Nếu câu hỏi có cả hai phần, tách rõ ràng. Chỉ trả về JSON hợp lệ, không có markdown, không có giải thích thêm: \x7b\"policy_query\": \"<câu hỏi policy hoặc rỗng>\", \"ops_query\": \"<câu hỏi ops hoặc rỗng>\"\x7d"

def followupSystemPrompt : String :=
  "Bạn đang hỗ trợ nhân viên khi không tìm thấy dữ liệu. Hãy đề xuất tối đa 2 câu hỏi liên quan hoặc hướng dẫn họ cung cấp thêm thông tin."

/-- `SpoonGraphService._rewrite_query`. -/
def rewrite_query (env : Env) (user_query : String) : String × Option String :=
  if env.hasLLM = false then (user_query, none)
  else if PyStr.wordCount user_query ≤ 4 then (user_query, none)
  else
    let messages := [Msg.mk "system" rewriteSystemPrompt,
      Msg.mk "user" ("Câu hỏi gốc: " ++ user_query)]
    match call_llm env messages "query-rewrite" with
    | some (r, p) => (r, some p)
    | none => (user_query, none)

/-- `SpoonGraphService._detect_intent_llm`. -/
def detect_intent_llm (env : Env) (user_query : String) : String × Option String :=
  if env.hasLLM = false then ("ambiguous", none)
  else
    let messages := [Msg.mk "system" intentSystemPrompt,
      Msg.mk "user" ("Câu hỏi: " ++ user_query)]
    let r := call_llm env messages "intent-detection"
    let content : Option String := r.map (fun p => p.1)
    let provider : Option String := r.map (fun p => p.2)
    let cleaned := PyStr.trim (PyStr.lower (content.getD ""))
    let tokens := ((PyStr.splitOn ',' cleaned).map PyStr.trim).filter (fun t => t ≠ "")
    let has_policy := tokens.contains "policy"
    let has_ops := tokens.contains "ops"
    if has_policy ∧ has_ops then ("ambiguous", provider)
    else if has_policy then ("policy", provider)
    else if has_ops then ("ops", provider)
    else ("ambiguous", provider)

/-- `SpoonGraphService._detect_intent`: `(intent, provider or "llm", query)`. -/
def detect_intent (env : Env) (user_query : String) : String × String × String :=
  let r := detect_intent_llm env user_query
  (r.1, pyGetOr r.2 "llm", user_query)

/-- `SpoonGraphService._plan_tools`. -/
def plan_tools (intent : String) : List String :=
  if intent = "policy" then ["policy_txt_lookup"]
  else if intent = "ops" then ["ops_txt_lookup"]
  else ["policy_txt_lookup", "ops_txt_lookup"]

/-- `SpoonGraphService._split_query_by_intent`: the result dict is modelled
as its optional "policy" and "ops" entries (present iff the parsed field is a
non-empty stripped string). -/
def split_query_by_intent (env : Env) (user_query rewritten_query : String) :
    Option String × Option String :=
  if env.hasLLM = false then (none, none)
  else
    let messages := [Msg.mk "system" splitSystemPrompt,
      Msg.mk "user" ("Câu hỏi gốc: " ++ user_query ++ "\n"
        ++ "Câu hỏi đã chuẩn hóa (nếu có): " ++ rewritten_query ++ "\n"
        ++ "Yêu cầu: tách câu hỏi cho từng nhóm.")]
    match call_llm env messages "intent-query-split" with
    | none => (none, none)
    | some (content, _) =>
      match env.parseSplit content with
      | none => (none, none)
      | some (pq, oq) =>
        let p := PyStr.trim (pq.getD "")
        let o := PyStr.trim (oq.getD "")
        (if p = "" then none else some p, if o = "" then none else some o)

/-- `tool_queries.get(tool_name, rewritten_query)`. -/
def lookupQ (qs : List (String × String)) (k d : String) : String :=
  match qs with
  | [] => d
  | (k', v) :: rest => if k' = k then v else lookupQ rest k d

/-- `queries[tool] = value` (plan tools are distinct, first match updated). -/
def setQ (qs : List (String × String)) (k v : String) : List (String × String) :=
  match qs with
  | [] => []
  | (k', v') :: rest => if k' = k then (k, v) :: rest else (k', v') :: setQ rest k v

/-- `SpoonGraphService._derive_tool_queries`.  The boolean records whether
`_split_query_by_intent` was invoked on this control path (the source calls it
in both the single-tool and the multi-tool branch). -/
def derive_tool_queries (env : Env) (plan : List String)
    (user_query rewritten_query : String) : List (String × String) × Bool :=
  if plan = [] then ([], false)
  else
    let queries := plan.map (fun t => (t, rewritten_query))
    if plan.length = 1 then
      let split := split_query_by_intent env user_query rewritten_query
      let t0 := plan.headD ""
      let queries := match split.1 with
        | some pq => if t0 = "policy_txt_lookup" then setQ queries t0 pq else queries
        | none => queries
      let queries := match split.2 with
        | some oq => if t0 = "ops_txt_lookup" then setQ queries t0 oq else queries
        | none => queries
      (queries, true)
    else
      let split := split_query_by_intent env user_query rewritten_query
      if split.1.isNone ∧ split.2.isNone then (queries, true)
      else
        let queries := match split.1 with
          | some pq => if "policy_txt_lookup" ∈ plan then setQ queries "policy_txt_lookup" pq
              else queries
          | none => queries
        let queries := match split.2 with
          | some oq => if "ops_txt_lookup" ∈ plan then setQ queries "ops_txt_lookup" oq
              else queries
          | none => queries
        (queries, true)

/-- `SpoonGraphService._extract_evidence`. -/
def extract_evidence (p : ToolPayload) : List Item :=
  p.results.map (fun it =>
    ⟨pyGetOr it.content (pyGetOr it.text ""), it.metadata.getD {}⟩)

/-- `SpoonGraphService._execute_tool` as observed by the caller:
`(tool_name, parsed_payload, error)` with the payload empty on failure. -/
def execute_tool (env : Env) (tool_name query : String) (top_k : Nat)
    (include_content : Bool) : String × Option ToolPayload × Option String :=
  match env.toolExec tool_name query top_k include_content with
  | .error e => (tool_name, none, some e)
  | .ok p => (tool_name, some p, none)

/-- Evidence tagging inside `run`'s collection loop: back-fill a truthy
payload `document_type` over a falsy metadata one, and `setdefault` the
originating tool. -/
def tagItem (document_type : Option String) (tool : String) (it : Item) : Item :=
  let m := it.metadata
  let m := if truthy document_type && !truthy m.document_type then
      { m with document_type := document_type } else m
  let m := if m.retrieval_tool = none then { m with retrieval_tool := some tool } else m
  { it with metadata := m }

/-- One recorded tool run (`{"tool", "query", "result_count"/"error"}`). -/
structure ToolRun where
  tool : String
  query : String
  result_count : Option Nat := none
  error : Option String := none
  deriving DecidableEq, Repr

/-- The result-collection loop of `run`, producing the aggregated evidence,
the successful tool names and the run log in loop order. -/
def collect_runs (queries : List (String × String)) (rewritten_query : String) :
    List (String × Option ToolPayload × Option String) →
    List Item × List String × List ToolRun
  | [] => ([], [], [])
  | (t, payload, err) :: rest =>
    let r := collect_runs queries rewritten_query rest
    let actual := lookupQ queries t rewritten_query
    match err with
    | some e => (r.1, r.2.1, ⟨t, actual, none, some e⟩ :: r.2.2)
    | none =>
      let extracted := extract_evidence (payload.getD {})
      let document_type := (payload.getD {}).document_type
      let tagged := extracted.map (tagItem document_type t)
      (tagged ++ r.1, t :: r.2.1, ⟨t, actual, some extracted.length, none⟩ :: r.2.2)

/-- `SpoonGraphService._infer_provider`. -/
def infer_provider (tool_calls : List String) : String :=
  if tool_calls = [] then "spoon-graph"
  else if tool_calls.all (fun c => c = "policy_txt_lookup") then "spoon-policy"
  else if tool_calls.all (fun c => c = "ops_txt_lookup") then "spoon-ops"
  else "spoon-graph"

/-- `SpoonGraphService._suggest_followups_llm`. -/
def suggest_followups_llm (env : Env) (user_query : String) : Option String :=
  if env.hasLLM = false then none
  else
    let messages := [Msg.mk "system" followupSystemPrompt,
      Msg.mk "user" ("Tôi không tìm được dữ liệu cho câu hỏi: " ++ user_query)]
    (call_llm env messages "followup-suggestion").map (fun p => p.1)

/-- Grouping key of `_summarize_with_llm`:
`item.get("metadata", {}).get("document_type", "other")` (a present empty
string is kept, unlike the truthiness-based `bucket_key`). -/
def typeKey (it : Item) : String :=
  it.metadata.document_type.getD "other"

/-- One excerpt of `_summarize_with_llm` (`none` when the stripped snippet is
empty, which the loop skips without counting). -/
def chunk_of_item (it : Item) : Option String :=
  let m := it.metadata
  let filename := pyGetOr m.filename (pyGetOr m.source "Tài liệu")
  let sec := pyGetOr m.«section» (pyGetOr m.heading "")
  let snippet := PyStr.trim it.content
  if snippet = "" then none
  else some (filename ++ (if sec ≠ "" then " › " ++ sec else "") ++ ":\n" ++ snippet)

/-- Inner excerpt loop over one type's items (checks the total limit of 8
before every item). -/
def chunk_items (acc : List String) : List Item → List String
  | [] => acc
  | it :: rest =>
    if 8 ≤ acc.length then acc
    else
      match chunk_of_item it with
      | none => chunk_items acc rest
      | some c => chunk_items (acc ++ [c]) rest

/-- Outer excerpt loop over the per-type groups (at most 4 items per type,
break once 8 excerpts were collected). -/
def chunk_groups (acc : List String) : List (String × List Item) → List String
  | [] => acc
  | (_, items) :: rest =>
    let acc' := chunk_items acc (items.take 4)
    if 8 ≤ acc'.length then acc' else chunk_groups acc' rest

def summarizeSystemPrompt : String :=
  "[VAI TRÒ & MỤC TIÊU]\n                Bạn là một Trợ lý AI Hỗ trợ Nghiệp vụ Nội bộ.\n                Mục tiêu cốt lõi của bạn là trả lời các câu hỏi của nhân viên một cách CHÍNH XÁC, KHÁCH QUAN và chỉ dựa trên các \"snippet\" thông tin được cung cấp.\n\n                [QUY TẮC XỬ LÝ SNIPPET - CỰC KỲ QUAN TRỌNG]\n                1.  **LỌC THÔNG TIN (Filter):** Các snippet được cung cấp có thể chứa thông tin thừa hoặc nhiễu. Bạn CHỈ được phép sử dụng những thông tin nào TRỰC TIẾP trả lời cho câu hỏi của người dùng. Hãy chủ động bỏ qua mọi thông tin không liên quan trong snippet.\n                2.  **XỬ LÝ SAI LỆCH (Handle Irrelevance):** Nếu TOÀN BỘ nội dung snippet được cung cấp rõ ràng KHÔNG liên quan đến câu hỏi của người dùng, bạn PHẢI trả lời: \"Xin lỗi, tôi không tìm thấy thông tin liên quan đến [chủ đề câu hỏi] trong tài liệu được cung cấp.\"\n                3.  **XỬ LÝ THIẾU THÔNG TIN (Handle Missing Parts):** Nếu câu hỏi của người dùng có nhiều ý, và snippet chỉ trả lời được một phần, hãy trả lời phần tìm thấy và nêu rõ ràng: \"Về phần [ý còn thiếu], tôi không tìm thấy thông tin trong tài liệu.\"\n\n                [QUY TẮC SUY LUẬN & CHỐNG BỊA ĐẶT (Inference & Anti-Hallucidation)]\n                1.  **CẤM SUY DIỄN NGHIỆP VỤ:** TUYỆT ĐỐI KHÔNG suy diễn về các chính sách phức tạp, con số tài chính, hoặc các quy trình nghiệp vụ (Ví dụ: KHÔNG được đoán \"ai là người phê duyệt\", \"tôi có được duyệt X không?\", \"lương của tôi sẽ tăng bao nhiêu?\").\n                2.  **CHO PHÉP SUY LUẬN LOGIC ĐƠN GIẢN:** Bạn **ĐƯỢC PHÉP** và **NÊN** thực hiện các suy luận logic trực tiếp, hiển nhiên (common-sense) từ thông tin được cung cấp.\n                    * **VÍ DỤ (Quan trọng):** Khi snippet nói \"Làm việc từ Thứ 2 đến Thứ 6\" và người dùng hỏi \"Thứ 7 có nghỉ không?\", bạn được phép suy luận và trả lời \"Có, theo tài liệu, ngày làm việc là Thứ 2 - Thứ 6, vì vậy Thứ 7 là ngày nghỉ.\"\n                3.  **TRUNG THỰC KHI SUY LUẬN:** Khi thực hiện suy luận (như các ví dụ trên), hãy cho thấy cơ sở của bạn một cách ngắn gọn, tự nhiên. (Ví dụ: \"Vì công ty làm việc từ T2-T6, nên T7 là ngày nghỉ...\").\n\n                [PHÂN TÍCH CÂU HỎI NHIỀU Ý - CỰC KỲ QUAN TRỌNG]\n                1.  Khi câu hỏi gồm nhiều ý (ví dụ vừa hỏi về chính sách, vừa hỏi về xử lý sự cố), BẮT BUỘC phải chia câu trả lời thành từng đoạn rõ ràng ứng với mỗi ý. KHÔNG ĐƯỢC bỏ qua bất kỳ ý nào.\n                2.  Nếu có snippet cho một phần, PHẢI trả lời đầy đủ phần đó trước. Sau đó mới xử lý phần còn lại.\n                3.  Nếu thiếu snippet cho một phần, chỉ nêu rõ cho phần đó: \"Về [ý thiếu], tôi không tìm thấy thông tin trong tài liệu.\" KHÔNG được nói chung chung \"không tìm thấy\" cho toàn bộ câu hỏi.\n                4.  CẤM bỏ qua hoặc không đề cập đến một phần của câu hỏi. Nếu câu hỏi có 2 ý, câu trả lời PHẢI có ít nhất 2 đoạn tương ứng.\n\n                [QUY TẮC VỀ CÂU TRẢ LỜI]\n                1.  **TÍNH BAO QUÁT (Comprehensive):** Luôn đảm bảo trả lời ĐẦY ĐỦ tất cả các ý/phần trong câu hỏi của người dùng.\n                2.  **TÍNH LINH HOẠT (Flexible):** Tùy chỉnh độ dài và chi tiết dựa trên ý định của người dùng (súc tích cho câu hỏi \"Là gì\", chi tiết cho câu hỏi \"Như thế nào\").\n                3.  **TÍNH TỰ NHIÊN (Natural Tone):** Viết lại câu trả lời một cách tự nhiên. KHÔNG sao chép nguyên văn toàn bộ snippet.\n                4.  **TRÍCH DẪN NGUỒN (Citation):** Luôn cố gắng nêu nguồn tài liệu nếu nó được cung cấp trong metadata của snippet.\n                    * **Ưu tiên:** Sử dụng tên tài liệu/chính sách. (Ví dụ: \"Theo Sổ tay Văn hóa,...\" hoặc \"Theo Chính sách Nghỉ phép năm 2025,...\")\n                    * **Không bịa đặt nguồn:** Nếu không có tên tài liệu cụ thể trong metadata, chỉ cần trả lời thông tin, không cần bịa ra nguồn.\n                    * **Tránh:** Không dùng các từ chung chung như \"theo snippet\" hay \"theo trích đoạn được cung cấp\"."

def multiTypeInstruction : String :=
  "\n\n⚠️ QUAN TRỌNG: Câu hỏi này có nhiều phần (chính sách và vận hành). BẮT BUỘC phải trả lời ĐẦY ĐỦ từng phần. Nếu thiếu snippet cho một phần, chỉ nêu rõ cho phần đó, KHÔNG được bỏ qua hoặc nói chung chung."

/-- `SpoonGraphService._summarize_with_llm`, returning
`(summary?, provider?, answer_mode)`. -/
def summarize_with_llm (env : Env) (user_query : String) (evidence : List Item)
    (intent : String) : Option String × Option String × String :=
  if env.hasLLM = false ∨ evidence = [] then (none, none, "snippet")
  else
    let keys := insKeys [] (evidence.map typeKey)
    let groups := keys.map (fun k => (k, evidence.filter (fun it => typeKey it = k)))
    let chunks := chunk_groups [] groups
    if chunks = [] then (none, none, "snippet")
    else
      let evidence_text := PyStr.join "\n\n" chunks
      let has_multiple_types := 1 < keys.length
      let query_instruction := if has_multiple_types then multiTypeInstruction else ""
      let user_prompt := "Câu hỏi: " ++ user_query ++ "\n\n"
        ++ "Loại câu hỏi: " ++ pyGetOr (some intent) "chung" ++ "\n\n"
        ++ "Tài liệu thu được:\n" ++ evidence_text ++ "\n\n"
        ++ "Yêu cầu: Viết câu trả lời hoàn chỉnh, đủ ý quan trọng (số liệu, điều kiện,"
        ++ " bước thực hiện). Không vượt quá 8 câu." ++ query_instruction
      let messages := [Msg.mk "system" summarizeSystemPrompt, Msg.mk "user" user_prompt]
      match call_llm env messages "answer-summary" with
      | none => (none, none, "snippet")
      | some (summary, provider) =>
        (some (summary ++ build_citation_section evidence), some provider, "llm-summary")

/-- Diagnostic metadata of a successful `run` result. -/
structure RunMeta where
  intent : String
  tool_calls : List String
  tool_runs : List ToolRun
  requested_by : String
  answer_mode : String
  intent_source : String
  intent_query : String
  rewritten_query : Option String
  rewrite_provider : Option String
  summary_provider : Option String
  deriving DecidableEq, Repr

/-- Result dictionary of `SpoonGraphService.run`: the disabled error, the
`graph-no-answer` error payload, or the success payload. -/
inductive RunOutcome where
  | disabled (error : String)
  | noAnswer (intent : String) (tool_runs : List ToolRun)
      (rewritten_query : Option String) (suggestions : Option String)
  | success (response : String) (evidence : List Item) (provider_used : String)
      (meta : RunMeta)
  deriving DecidableEq, Repr

/-!
`SpoonGraphService.run` is staged into named definitions (each is one group
of `let` bindings of the source method, in source order), then assembled;
`asyncio.gather` keeps task order, so the concurrent tool calls are the
in-order map over the plan.
-/

/-- `run` line
`rewritten_query, rewrite_provider = await self._rewrite_query(...) if rewrite else (user_query, None)`. -/
def run_rewritten (env : Env) (user_query : String) (rewrite : Bool) :
    String × Option String :=
  if rewrite then rewrite_query env user_query else (user_query, none)

/-- The detected intent of a run (`intent` of `run`). -/
def run_intent (env : Env) (user_query : String) (rewrite : Bool) : String :=
  (detect_intent env (run_rewritten env user_query rewrite).1).1

/-- The per-tool queries of a run (`tool_queries` of `run`). -/
def run_queries (env : Env) (user_query : String) (rewrite : Bool) :
    List (String × String) :=
  (derive_tool_queries env (plan_tools (run_intent env user_query rewrite))
    user_query (run_rewritten env user_query rewrite).1).1

/-- The gathered tool results followed by the collection loop of `run`:
`(evidence, tool_calls, tool_runs)`. -/
def run_collected (env : Env) (user_query : String) (top_k : Nat)
    (rewrite : Bool) : List Item × List String × List ToolRun :=
  let rewritten_query := (run_rewritten env user_query rewrite).1
  let plan := plan_tools (run_intent env user_query rewrite)
  let queries := run_queries env user_query rewrite
  let results := plan.map (fun t =>
    execute_tool env t (lookupQ queries t rewritten_query) top_k true)
  collect_runs queries rewritten_query results

/-- `prioritized_evidence` of `run`. -/
def run_prioritized (env : Env) (user_query : String) (top_k : Nat)
    (rewrite : Bool) : List Item :=
  let col := run_collected env user_query top_k rewrite
  prioritize_evidence col.1 col.2.1

/-- The `intent` argument handed to the synthesis helpers:
`intent if intent in {"policy", "ops"} else self._infer_provider(tool_calls)`. -/
def run_intent_arg (env : Env) (user_query : String) (top_k : Nat)
    (rewrite : Bool) : String :=
  let intent := run_intent env user_query rewrite
  if intent = "policy" ∨ intent = "ops" then intent
  else infer_provider (run_collected env user_query top_k rewrite).2.1

/-- `SpoonGraphService.run`. -/
def run (env : Env) (user_query username : String) (top_k : Nat := 5)
    (rewrite : Bool := false) : RunOutcome :=
  if env.enabled = false then .disabled "Spoon graph is disabled."
  else
    let rw := run_rewritten env user_query rewrite
    let rewritten_query := rw.1
    let did := detect_intent env rewritten_query
    let intent := did.1
    let col := run_collected env user_query top_k rewrite
    let evidence := col.1
    let tool_calls := col.2.1
    let tool_runs := col.2.2
    let prioritized := run_prioritized env user_query top_k rewrite
    let intentArg := run_intent_arg env user_query top_k rewrite
    let s := summarize_with_llm env user_query prioritized intentArg
    let response := match s.1 with
      | some t => some t
      | none => synthesize_response user_query prioritized intentArg
    let answer_mode := if s.1.isSome then s.2.2 else "snippet-fallback"
    let provider_used := infer_provider tool_calls
    match response with
    | none => .noAnswer intent tool_runs
        (if rewrite then some rewritten_query else none)
        (suggest_followups_llm env user_query)
    | some resp => .success resp evidence provider_used
        ⟨intent, tool_calls, tool_runs, username, answer_mode, did.2.1, did.2.2,
          (if rewrite then some rewritten_query else none), rw.2, s.2.1⟩

/-- The recorded tool runs of a result dictionary (empty for the disabled
error, which carries no metadata). -/
def RunOutcome.toolRuns : RunOutcome → List ToolRun
  | .disabled _ => []
  | .noAnswer _ tr _ _ => tr
  | .success _ _ _ m => m.tool_runs

/-- The `response` field of a result dictionary, when present. -/
def RunOutcome.responseText : RunOutcome → Option String
  | .success r _ _ _ => some r
  | _ => none

/-- The `metadata.answer_mode` field of a successful result. -/
def RunOutcome.answerMode : RunOutcome → Option String
  | .success _ _ _ m => some m.answer_mode
  | _ => none

/-- The `metadata.tool_calls` field of a successful result. -/
def RunOutcome.toolCallsMeta : RunOutcome → Option (List String)
  | .success _ _ _ m => some m.tool_calls
  | _ => none

/-- One provider preference used by the concrete test environments. -/
def prefGemini : ProviderPreference := ⟨some "gemini", "g", none⟩

/-- Stub environment for the query-split counterexample: the intent call
answers `"policy"` (single-tool plan) and the split call answers `"SPLIT"`,
which the JSON oracle parses to a policy sub-query `"P"`; tools are unused. -/
def envSplitCex : Env where
  enabled := true
  hasLLM := true
  chain := [prefGemini]
  geminiModel := none
  chat := fun _ msgs =>
    if (msgs.headD ⟨"", ""⟩).content = intentSystemPrompt then .ok (some "policy") none
    else .ok (some "SPLIT") none
  parseSplit := fun s => if s = "SPLIT" then some (some "P", none) else none
  toolExec := fun _ _ _ _ => .error "unused"

/-- Stub environment in which every provider call raises and the policy tool
returns one result whose content is empty: the fallback chain is exhausted and
the aggregated evidence is non-empty but carries no usable snippet text. -/
def envAllFailEmpty : Env where
  enabled := true
  hasLLM := true
  chain := [prefGemini]
  geminiModel := none
  chat := fun _ _ => .exn
  parseSplit := fun _ => none
  toolExec := fun t _ _ _ =>
    if t = "policy_txt_lookup" then .ok ⟨[⟨some "", none, none⟩], some "policy"⟩
    else .error "boom"

/-- Stub environment in which every provider call raises and the policy tool
returns one result with non-empty content (deterministic snippet path). -/
def envAllFailContent : Env where
  enabled := true
  hasLLM := true
  chain := [prefGemini]
  geminiModel := none
  chat := fun _ _ => .exn
  parseSplit := fun _ => none
  toolExec := fun t _ _ _ =>
    if t = "policy_txt_lookup" then
      .ok ⟨[⟨some "WFH: work from home is allowed.", none,
        some ⟨none, none, none, some "hr.md", none, none, none⟩⟩], some "policy"⟩
    else .error "boom"

/-- Stub payload of the policy tool for the two-tool scenario. -/
def payloadPolicy : ToolPayload :=
  ⟨[⟨some "WFH: allowed two days a week.", none,
    some ⟨none, none, some (1 : ℚ), some "hr.md", none, some "wfh", none⟩⟩],
    some "policy"⟩

/-- Stub payload of the ops tool for the two-tool scenario. -/
def payloadOps : ToolPayload :=
  ⟨[⟨some "Rollback: revert the release tag.", none,
    some ⟨none, none, some (2 : ℚ), some "runbook.md", none, some "rollback", none⟩⟩],
    some "ops"⟩

/-- Deterministic stub environment for the two-tool scenario: every provider
call answers `"stub answer"` (which the intent classifier parses to
`ambiguous`, planning both tools), the split parser fails (each tool keeps the
rewritten query), and both tools succeed with one stub result each. -/
def envTwoTools : Env where
  enabled := true
  hasLLM := true
  chain := [prefGemini]
  geminiModel := none
  chat := fun _ _ => .ok (some "stub answer") (some "stub-provider")
  parseSplit := fun _ => none
  toolExec := fun t _ _ _ =>
    if t = "policy_txt_lookup" then .ok payloadPolicy
    else if t = "ops_txt_lookup" then .ok payloadOps
    else .error "unknown tool"

end Spoon

namespace Rag

/-- Outcome of one `llm_manager.chat` call in `generate_response`: a response
object, a typed `RateLimitError`, or any other exception with its text. -/
inductive ChatResult where
  | ok (content : Option String)
  | rateLimitError (msg : String)
  | exn (msg : String)
  deriving DecidableEq, Repr

/-- The textual rate-limit classification applied to non-typed exceptions:
`"rate limit" in detail or "quota" in detail or "429" in detail` on the
lowercased message. -/
def is_rate_limit_text (msg : String) : Bool :=
  PyStr.containsSub (PyStr.lower msg) "rate limit"
    || PyStr.containsSub (PyStr.lower msg) "quota"
    || PyStr.containsSub (PyStr.lower msg) "429"

/-- A call outcome that the source treats as rate-limit-class. -/
def isRateClassFailure : ChatResult → Bool
  | .ok _ => false
  | .rateLimitError _ => true
  | .exn m => is_rate_limit_text m

/-- Environment of `rag_graph_service.generate_response`: the chat stub is a
deterministic oracle keyed by the global call counter, `random.uniform(0, 1)`
is the `jitter` oracle keyed by the index of the failed call, the retry
settings come from configuration, and the Ollama HTTP call is one oracle
outcome. -/
structure GenEnv where
  hasLLM : Bool
  chat : Nat → ChatResult
  jitter : Nat → ℚ
  maxRetries : Nat
  baseDelay : ℚ
  maxDelay : ℚ
  geminiModel : String
  ollamaEnabled : Bool
  ollama : Except String (Option String)
  ollamaModel : String
  retrievedDocs : List String

/-- Result dictionary of `generate_response` (and of
`generate_fallback_response`). -/
structure GenResult where
  response : Option String
  provider_used : Option String
  error : Option String := none
  deriving DecidableEq, Repr

/-- `generate_fallback_response` (document-only answer when no LLM worked). -/
def generate_fallback_response (docs : List String) : GenResult :=
  if docs = [] then
    ⟨some ("Xin lỗi, tôi không tìm thấy thông tin liên quan đến câu hỏi của bạn"
        ++ " trong tài liệu công ty. Vui lòng thử lại với câu hỏi khác hoặc liên"
        ++ " hệ bộ phận hỗ trợ."),
      some "fallback", some "No documents found"⟩
  else
    let texts := (docs.take 3).map (fun c => PyStr.take c 500)
    ⟨some ("Dựa trên tài liệu công ty, tôi tìm thấy thông tin sau:\n\n"
        ++ PyStr.join "\n\n" (texts.map (fun t => "- " ++ t))
        ++ "\n\nVui lòng liên hệ bộ phận hỗ trợ để biết thêm chi tiết."),
      some "fallback", none⟩

/-- The `for attempt in range(max_retries)` loop for one Gemini model.
Returns the successful response content (if any), the new value of the global
call counter, and the list of backoff sleeps performed, in order.  A
non-rate-limit failure, or a rate-limit failure on the last attempt, breaks to
the next model. -/
def attempt_loop (env : GenEnv) (attempt calls : Nat) :
    Option (Option String) × Nat × List ℚ :=
  if attempt < env.maxRetries then
    match env.chat calls with
    | .ok c => (some c, calls + 1, [])
    | .rateLimitError _ =>
      if attempt < env.maxRetries - 1 then
        let d := min (env.baseDelay * 2 ^ attempt) env.maxDelay + env.jitter calls
        let r := attempt_loop env (attempt + 1) (calls + 1)
        (r.1, r.2.1, d :: r.2.2)
      else (none, calls + 1, [])
    | .exn m =>
      if is_rate_limit_text m then
        if attempt < env.maxRetries - 1 then
          let d := min (env.baseDelay * 2 ^ attempt) env.maxDelay + env.jitter calls
          let r := attempt_loop env (attempt + 1) (calls + 1)
          (r.1, r.2.1, d :: r.2.2)
        else (none, calls + 1, [])
      else (none, calls + 1, [])
  else (none, calls, [])
termination_by env.maxRetries - attempt

/-- `gemini_models` of `generate_response`: the configured primary model and
the two hard-coded fallbacks, in order. -/
def gemini_models (env : GenEnv) : List String :=
  [env.geminiModel, "gemini-2.0-flash-exp", "gemini-1.5-pro"]

/-- The `for model in gemini_models` loop: each model gets a fresh attempt
loop; a success short-circuits with provider label `"gemini-<model>"`. -/
def gemini_loop (env : GenEnv) :
    List String → Nat → Option (Option String × String) × Nat × List ℚ
  | [], calls => (none, calls, [])
  | m :: ms, calls =>
    let r := attempt_loop env 0 calls
    match r.1 with
    | some c => (some (c, "gemini-" ++ m), r.2.1, r.2.2)
    | none =>
      let rest := gemini_loop env ms r.2.1
      (rest.1, rest.2.1, r.2.2 ++ rest.2.2)

/-- `rag_graph_service.generate_response` (the graph node): Gemini chain with
retries, then the Ollama fallback, then the deterministic document fallback.
Also returns the final call counter and the sleep log. -/
def generate_response (env : GenEnv) : GenResult × Nat × List ℚ :=
  if env.hasLLM = false then (⟨some "", none, some "LLM manager not found"⟩, 0, [])
  else
    let g := gemini_loop env (gemini_models env) 0
    match g.1 with
    | some (c, prov) => (⟨c, some prov, none⟩, g.2.1, g.2.2)
    | none =>
      if env.ollamaEnabled then
        match env.ollama with
        | .ok c => (⟨c, some ("ollama-" ++ env.ollamaModel), none⟩, g.2.1, g.2.2)
        | .error _ => (generate_fallback_response env.retrievedDocs, g.2.1, g.2.2)
      else (generate_fallback_response env.retrievedDocs, g.2.1, g.2.2)

/-- Stub environment whose chat raises a typed rate-limit error on the first
two calls and then answers: three retries are configured, so the third attempt
on the first model succeeds. -/
def envTwoRateLimits : GenEnv where
  hasLLM := true
  chat := fun i => if i < 2 then .rateLimitError "resource exhausted" else .ok (some "hi")
  jitter := fun _ => 1/2
  maxRetries := 3
  baseDelay := 1
  maxDelay := 4
  geminiModel := "gemini-2.5-flash"
  ollamaEnabled := false
  ollama := .error "unused"
  ollamaModel := "llama3"
  retrievedDocs := []

/-- Stub environment whose chat raises untyped HTTP-429 errors on the first
three calls (one full retry budget) and then answers: the first model is
exhausted and the chain advances to the second model. -/
def envExhaustFirstModel : GenEnv where
  hasLLM := true
  chat := fun i => if i < 3 then .exn "HTTP 429 Too Many Requests" else .ok (some "ok")
  jitter := fun _ => 1/2
  maxRetries := 3
  baseDelay := 1
  maxDelay := 4
  geminiModel := "gemini-2.5-flash"
  ollamaEnabled := false
  ollama := .error "unused"
  ollamaModel := "llama3"
  retrievedDocs := []

end Rag

namespace Chroma

/-- A Python value stored under the `document_id` metadata key (the repository
stores ints or strings there; `pnone` is Python `None`). -/
inductive PyVal where
  | pint (n : Int)
  | pstr (s : String)
  | pnone
  deriving DecidableEq, Repr

/-- Python `==` on these values (values of different types are unequal). -/
def pyEq : PyVal → PyVal → Bool
  | .pint n, .pint m => n = m
  | .pstr a, .pstr b => a = b
  | .pnone, .pnone => true
  | _, _ => false

/-- Python `str(...)` of such a value. -/
def pyStr : PyVal → String
  | .pint n => toString n
  | .pstr s => s
  | .pnone => "None"

/-- One stored vector-collection record: its id, whether its metadata dict is
truthy, and the value under its `document_id` key (if present). -/
structure Entry where
  eid : String
  metaPresent : Bool
  document_id : Option PyVal := none
  deriving DecidableEq, Repr

/-- Ids matched by the index-native `where={"document_id": {"$eq": v}}`
filter: typed equality against the stored value. -/
def native_ids (store : List Entry) (v : PyVal) : List String :=
  (store.filter (fun e =>
    match e.document_id with
    | some d => pyEq d v
    | none => false)).map (fun e => e.eid)

/-- The fallback-scan predicate:
`doc_id == document_id or str(doc_id) == str(document_id)` guarded by the
metadata truthiness check (`if metadata:`); a missing key reads as `None`. -/
def fallback_match (e : Entry) (v : PyVal) : Bool :=
  e.metaPresent &&
    (pyEq (e.document_id.getD .pnone) v || pyStr (e.document_id.getD .pnone) = pyStr v)

/-- Ids collected by the full-scan fallback. -/
def fallback_ids (store : List Entry) (v : PyVal) : List String :=
  (store.filter (fun e => fallback_match e v)).map (fun e => e.eid)

/-- `collection.delete(ids=...)`. -/
def delete_ids (store : List Entry) (ids : List String) : List Entry :=
  store.filter (fun e => e.eid ∉ ids)

/-- `CustomChromaClient.delete_documents_by_metadata`.  `nativeRaises` models
an exception raised anywhere inside the first `try` block (the filtered
`collection.get` or the following `delete`); `scanRaises` models an exception
inside the fallback block, which the source swallows after printing a
warning. -/
def delete_documents_by_metadata (store : List Entry) (document_id : PyVal)
    (nativeRaises scanRaises : Bool) : List Entry :=
  if nativeRaises = false then
    let ids := native_ids store document_id
    if ids ≠ [] then delete_ids store ids else store
  else if scanRaises = false then
    let ids := fallback_ids store document_id
    if ids ≠ [] then delete_ids store ids else store
  else store

/-- A store whose only record carries the string `"5"` as `document_id`: the
typed filter for the integer `5` finds nothing there, while the string-equality
fallback predicate would match it. -/
def strIdStore : List Entry := [⟨"a", true, some (.pstr "5")⟩]

theorem delete_ids_nil (store : List Entry) : delete_ids store [] = store := by
  simp [delete_ids]

end Chroma

/-!
## Claim theorems
-/

/-- C6 counterexample: with the integer id `5` queried against a record whose
stored `document_id` is the string `"5"`, the index-native filter returns no
matches, the claimed fallback union is non-empty, and yet
`delete_documents_by_metadata` (whose first attempt succeeded without raising)
leaves the store unchanged — no fallback scan happens on a no-match success. -/
theorem Chroma.no_match_success_skips_fallback :
    Chroma.native_ids Chroma.strIdStore (.pint 5) = []
    ∧ Chroma.fallback_ids Chroma.strIdStore (.pint 5) = ["a"]
    ∧ Chroma.delete_documents_by_metadata Chroma.strIdStore (.pint 5) false false
        = Chroma.strIdStore := by
  refine ⟨by decide, by decide, by decide⟩

/-- C6 (amended): `delete_documents_by_metadata` attempts the index-native
equality-filter delete first and, when that attempt does not raise, deletes
exactly the native matches — in particular a no-match success deletes nothing
and performs no fallback scan; the full-scan fallback (deleting the union of
native-equality and string-equality matches) runs only when the first attempt
raises, and a failure of the fallback itself is swallowed, leaving the store
unchanged.  No failure is ever propagated (the operation is total). -/
theorem Chroma.delete_by_metadata_behavior (store : List Chroma.Entry)
    (v : Chroma.PyVal) :
    (Chroma.native_ids store v = [] →
      ∀ scanRaises, Chroma.delete_documents_by_metadata store v false scanRaises = store)
    ∧ (∀ scanRaises, Chroma.delete_documents_by_metadata store v false scanRaises
        = Chroma.delete_ids store (Chroma.native_ids store v))
    ∧ Chroma.delete_documents_by_metadata store v true false
        = Chroma.delete_ids store (Chroma.fallback_ids store v)
    ∧ Chroma.delete_documents_by_metadata store v true true = store := by
  refine ⟨?_, ?_, ?_, rfl⟩
  · intro h scanRaises
    simp [Chroma.delete_documents_by_metadata, h]
  · intro scanRaises
    by_cases h : Chroma.native_ids store v = []
    · simp [Chroma.delete_documents_by_metadata, h, Chroma.delete_ids_nil]
    · simp [Chroma.delete_documents_by_metadata, h]
  · by_cases h : Chroma.fallback_ids store v = []
    · simp [Chroma.delete_documents_by_metadata, h, Chroma.delete_ids_nil]
    · simp [Chroma.delete_documents_by_metadata, h]

/-- C6 witness: the amended theorem applied to the concrete string-id store
and the integer id `5`, discharging the no-native-match hypothesis. -/
theorem Chroma.delete_by_metadata_behavior_witness :
    Chroma.native_ids Chroma.strIdStore (.pint 5) = []
    ∧ Chroma.delete_documents_by_metadata Chroma.strIdStore (.pint 5) false true
        = Chroma.strIdStore :=
  ⟨by decide,
    (Chroma.delete_by_metadata_behavior Chroma.strIdStore (.pint 5)).1 (by decide) true⟩

theorem Spoon.citation_go_fst_nodup (limit : Nat) (l : List Spoon.Item) :
    ∀ (idx : Nat) (seen : List String) (acc : List (String × String)),
      (acc.map Prod.fst).Nodup → (∀ f ∈ acc.map Prod.fst, f ∈ seen) →
      ((Spoon.citation_go limit l idx seen acc).map Prod.fst).Nodup := by
  induction l with
  | nil =>
    intro idx seen acc h1 _
    simpa [Spoon.citation_go] using h1
  | cons it rest ih =>
    intro idx seen acc h1 h2
    simp only [Spoon.citation_go]
    split
    · exact ih (idx + 1) seen acc h1 h2
    · rename_i hfn
      have hnotin : (Spoon.citation_entry idx it).1 ∉ acc.map Prod.fst := by
        intro hmem
        exact hfn (h2 _ hmem)
      have h1' : ((acc ++ [Spoon.citation_entry idx it]).map Prod.fst).Nodup := by
        simp only [List.map_append, List.map_cons, List.map_nil]
        rw [List.nodup_append]
        refine ⟨h1, List.nodup_singleton _, ?_⟩
        intro f hf
        simp only [List.mem_singleton]
        intro hEq
        exact hnotin (hEq ▸ hf)
      split
      · exact h1'
      · refine ih (idx + 1) _ _ h1' ?_
        intro f hf
        simp only [List.map_append, List.map_cons, List.map_nil, List.mem_append,
          List.mem_singleton] at hf
        rcases hf with hf | hf
        · exact List.mem_append_left _ (h2 f hf)
        · subst hf
          exact List.mem_append_right _ (by simp)

theorem Spoon.citation_go_length (limit : Nat) (l : List Spoon.Item) :
    ∀ (idx : Nat) (seen : List String) (acc : List (String × String)),
      acc.length < limit →
      (Spoon.citation_go limit l idx seen acc).length ≤ limit := by
  induction l with
  | nil =>
    intro idx seen acc h
    simp only [Spoon.citation_go]
    omega
  | cons it rest ih =>
    intro idx seen acc h
    simp only [Spoon.citation_go]
    split
    · exact ih (idx + 1) seen acc h
    · split
      · rename_i hfull
        simp only [List.length_append, List.length_cons, List.length_nil] at *
        omega
      · rename_i hnotfull
        refine ih (idx + 1) _ _ ?_
        simp only [List.length_append, List.length_cons, List.length_nil] at *
        omega

/-- Three evidence items that all resolve to the filename `hr.md`. -/
def Spoon.tripleSameFile : List Spoon.Item :=
  [⟨"c1", ⟨some "policy", none, none, some "hr.md", none, some "s1", none⟩⟩,
   ⟨"c2", ⟨some "policy", none, none, some "hr.md", none, some "s2", none⟩⟩,
   ⟨"c3", ⟨some "policy", none, none, some "hr.md", none, none, none⟩⟩]

/-- C9: within one citation block each filename yields at most one line (the
emitted filenames are pairwise distinct), at most `limit` lines are collected,
only the first `2 × limit` evidence items are ever scanned, and in particular
the three items of `tripleSameFile` (all with filename `hr.md`) produce
exactly the one citation line for `hr.md`. -/
theorem Spoon.citation_unique_per_filename (evidence : List Spoon.Item) (limit : Nat) :
    ((Spoon.citation_pairs evidence limit).map Prod.fst).Nodup
    ∧ (Spoon.citation_pairs evidence limit).length ≤ limit
    ∧ Spoon.citation_pairs evidence limit
        = Spoon.citation_pairs (evidence.take (2 * limit)) limit
    ∧ (Spoon.citation_pairs Spoon.tripleSameFile 2).map Prod.fst = ["hr.md"] := by
  refine ⟨?_, ?_, ?_, by decide⟩
  · exact Spoon.citation_go_fst_nodup limit _ 1 [] [] (by simp) (by simp)
  · rcases Nat.eq_zero_or_pos limit with h0 | hpos
    · subst h0
      simp [Spoon.citation_pairs, Spoon.citation_go]
    · exact Spoon.citation_go_length limit _ 1 [] [] (by simpa using hpos)
  · simp [Spoon.citation_pairs, List.take_take, Nat.mul_comm]

theorem Spoon.insertItem_perm (x : Spoon.Item) (l : List Spoon.Item) :
    (Spoon.insertItem x l).Perm (x :: l) := by
  induction l with
  | nil => simp [Spoon.insertItem]
  | cons y ys ih =>
    simp only [Spoon.insertItem]
    split
    · exact (ih.cons y).trans (List.Perm.swap x y ys)
    · exact List.Perm.refl _

theorem Spoon.sortByDistance_perm (l : List Spoon.Item) :
    (Spoon.sortByDistance l).Perm l := by
  induction l with
  | nil => simp [Spoon.sortByDistance]
  | cons a l ih =>
    simp only [Spoon.sortByDistance, List.foldr_cons] at ih ⊢
    exact (Spoon.insertItem_perm a _).trans (ih.cons a)

theorem Spoon.insertItem_sorted (x : Spoon.Item) (l : List Spoon.Item)
    (h : l.Pairwise (fun a b => Spoon.distance_key a ≤ Spoon.distance_key b)) :
    (Spoon.insertItem x l).Pairwise
      (fun a b => Spoon.distance_key a ≤ Spoon.distance_key b) := by
  induction l with
  | nil => simp [Spoon.insertItem]
  | cons y ys ih =>
    simp only [Spoon.insertItem]
    rcases List.pairwise_cons.mp h with ⟨hy, hys⟩
    split
    · rename_i hlt
      rw [List.pairwise_cons]
      refine ⟨?_, ih hys⟩
      intro z hz
      have hz' := (Spoon.insertItem_perm x ys).mem_iff.mp hz
      rw [List.mem_cons] at hz'
      rcases hz' with hz' | hz'
      · subst hz'
        exact le_of_lt hlt
      · exact hy z hz'
    · rename_i hnlt
      rw [List.pairwise_cons]
      refine ⟨?_, h⟩
      intro z hz
      simp only [List.mem_cons] at hz
      rcases hz with hz | hz
      · subst hz
        exact le_of_not_lt hnlt
      · exact le_trans (le_of_not_lt hnlt) (hy z hz)

theorem Spoon.sortByDistance_sorted (l : List Spoon.Item) :
    (Spoon.sortByDistance l).Pairwise
      (fun a b => Spoon.distance_key a ≤ Spoon.distance_key b) := by
  induction l with
  | nil => simp [Spoon.sortByDistance]
  | cons a l ih =>
    simp only [Spoon.sortByDistance, List.foldr_cons] at ih ⊢
    exact Spoon.insertItem_sorted a _ ih

theorem Spoon.insertItem_filter_key (x : Spoon.Item) (l : List Spoon.Item)
    (d : WithTop ℚ) :
    (Spoon.insertItem x l).filter (fun y => Spoon.distance_key y = d)
      = if Spoon.distance_key x = d
        then x :: l.filter (fun y => Spoon.distance_key y = d)
        else l.filter (fun y => Spoon.distance_key y = d) := by
  induction l with
  | nil => simp [Spoon.insertItem, List.filter_singleton]
  | cons y ys ih =>
    simp only [Spoon.insertItem]
    split
    · rename_i hlt
      by_cases hxd : Spoon.distance_key x = d
      · have hyd : ¬ Spoon.distance_key y = d := by
          intro hyd
          rw [hxd] at hlt
          rw [hyd] at hlt
          exact lt_irrefl d hlt
        simp [List.filter_cons, hxd, hyd, ih]
      · simp [List.filter_cons, hxd, ih]
    · by_cases hxd : Spoon.distance_key x = d
      · simp [List.filter_cons, hxd]
      · simp [List.filter_cons, hxd]

theorem Spoon.sortByDistance_filter_key (l : List Spoon.Item) (d : WithTop ℚ) :
    (Spoon.sortByDistance l).filter (fun y => Spoon.distance_key y = d)
      = l.filter (fun y => Spoon.distance_key y = d) := by
  induction l with
  | nil => simp [Spoon.sortByDistance]
  | cons a l ih =>
    simp only [Spoon.sortByDistance, List.foldr_cons] at ih ⊢
    rw [Spoon.insertItem_filter_key]
    by_cases had : Spoon.distance_key a = d
    · simp [List.filter_cons, had, ih]
    · simp [List.filter_cons, had, ih]

/-- C7: with at most one successful tool, `_prioritize_evidence` returns a
permutation of the evidence that is sorted ascending by the distance key
(missing numeric distance = `⊤`, hence last), never places an item carrying a
numeric distance after one without, and is stable: for every key value the
items with that key appear in their original relative order. -/
theorem Spoon.prioritize_single_tool_sorted (evidence : List Spoon.Item)
    (tool_calls : List String) (h : tool_calls.length ≤ 1) :
    (Spoon.prioritize_evidence evidence tool_calls).Perm evidence
    ∧ (Spoon.prioritize_evidence evidence tool_calls).Pairwise
        (fun a b => Spoon.distance_key a ≤ Spoon.distance_key b)
    ∧ (Spoon.prioritize_evidence evidence tool_calls).Pairwise
        (fun a b => a.metadata.distance = none → b.metadata.distance = none)
    ∧ ∀ d, (Spoon.prioritize_evidence evidence tool_calls).filter
          (fun x => Spoon.distance_key x = d)
        = evidence.filter (fun x => Spoon.distance_key x = d) := by
  by_cases hev : evidence = []
  · subst hev
    simp [Spoon.prioritize_evidence]
  · have hpe : Spoon.prioritize_evidence evidence tool_calls
        = Spoon.sortByDistance evidence := by
      simp [Spoon.prioritize_evidence, hev, h]
    rw [hpe]
    refine ⟨Spoon.sortByDistance_perm evidence, Spoon.sortByDistance_sorted evidence,
      ?_, Spoon.sortByDistance_filter_key evidence⟩
    refine (Spoon.sortByDistance_sorted evidence).imp ?_
    intro a b hab hnone
    have ha : Spoon.distance_key a = ⊤ := by
      simp [Spoon.distance_key, hnone]
    rw [ha] at hab
    have hb : Spoon.distance_key b = ⊤ := top_le_iff.mp hab
    cases hbd : b.metadata.distance with
    | none => rfl
    | some q =>
      rw [Spoon.distance_key, hbd] at hb
      exact absurd hb (WithTop.coe_ne_top)

/-- C7 witness: the sortedness theorem applied to the three-item evidence list
and a one-tool call list. -/
theorem Spoon.prioritize_single_tool_sorted_witness :
    (["policy_txt_lookup"] : List String).length ≤ 1
    ∧ ((Spoon.prioritize_evidence Spoon.tripleSameFile ["policy_txt_lookup"]).Perm
          Spoon.tripleSameFile
      ∧ (Spoon.prioritize_evidence Spoon.tripleSameFile ["policy_txt_lookup"]).Pairwise
          (fun a b => Spoon.distance_key a ≤ Spoon.distance_key b)
      ∧ (Spoon.prioritize_evidence Spoon.tripleSameFile ["policy_txt_lookup"]).Pairwise
          (fun a b => a.metadata.distance = none → b.metadata.distance = none)
      ∧ ∀ d, (Spoon.prioritize_evidence Spoon.tripleSameFile ["policy_txt_lookup"]).filter
            (fun x => Spoon.distance_key x = d)
          = Spoon.tripleSameFile.filter (fun x => Spoon.distance_key x = d)) :=
  ⟨by decide, Spoon.prioritize_single_tool_sorted Spoon.tripleSameFile
    ["policy_txt_lookup"] (by decide)⟩

theorem Spoon.collect_runs_mem (queries : List (String × String)) (rq : String)
    (results : List (String × Option Spoon.ToolPayload × Option String)) :
    ∀ r ∈ (Spoon.collect_runs queries rq results).2.2,
      (r.result_count.isSome ∧ r.error = none)
        ∨ (r.error.isSome ∧ r.result_count = none) := by
  induction results with
  | nil => simp [Spoon.collect_runs]
  | cons p rest ih =>
    obtain ⟨t, payload, err⟩ := p
    intro r hr
    cases err with
    | none =>
      simp only [Spoon.collect_runs, List.mem_cons] at hr
      rcases hr with hr | hr
      · subst hr
        exact Or.inl ⟨rfl, rfl⟩
      · exact ih r hr
    | some e =>
      simp only [Spoon.collect_runs, List.mem_cons] at hr
      rcases hr with hr | hr
      · subst hr
        exact Or.inr ⟨rfl, rfl⟩
      · exact ih r hr

theorem Spoon.run_toolRuns_eq (env : Spoon.Env) (q u : String) (k : Nat) (rw : Bool) :
    (Spoon.run env q u k rw).toolRuns
      = if env.enabled = false then [] else (Spoon.run_collected env q k rw).2.2 := by
  by_cases he : env.enabled = false
  · simp [Spoon.run, he, Spoon.RunOutcome.toolRuns]
  · rw [if_neg he]
    unfold Spoon.run
    rw [if_neg he]
    rcases hs : (Spoon.summarize_with_llm env q (Spoon.run_prioritized env q k rw)
        (Spoon.run_intent_arg env q k rw)).1 with _ | t
    · rcases hsyn : Spoon.synthesize_response q (Spoon.run_prioritized env q k rw)
          (Spoon.run_intent_arg env q k rw) with _ | t2
      · simp only [hs, hsyn, Spoon.RunOutcome.toolRuns]
      · simp only [hs, hsyn, Spoon.RunOutcome.toolRuns]
    · simp only [hs, Spoon.RunOutcome.toolRuns]

/-- C8: every recorded `ToolRun` of a `run` result populates exactly one of
`result_count` and `error`: a successful tool call records its result count
and no error, a failed tool call records its error and no result count. -/
theorem Spoon.toolrun_exactly_one (env : Spoon.Env) (q u : String) (k : Nat)
    (rw : Bool) :
    (Spoon.run env q u k rw).toolRuns.Forall
      (fun r => (r.result_count.isSome ∧ r.error = none)
        ∨ (r.error.isSome ∧ r.result_count = none)) := by
  rw [List.forall_iff_forall_mem]
  intro r hr
  rw [Spoon.run_toolRuns_eq] at hr
  by_cases he : env.enabled = false
  · rw [if_pos he] at hr
    simp at hr
  · rw [if_neg he] at hr
    exact Spoon.collect_runs_mem _ _ _ r hr

theorem Spoon.collect_runs_calls (queries : List (String × String)) (rq : String)
    (results : List (String × Option Spoon.ToolPayload × Option String)) :
    (Spoon.collect_runs queries rq results).2.1
      = ((Spoon.collect_runs queries rq results).2.2.filter
          (fun r => r.error = none)).map (fun r => r.tool) := by
  induction results with
  | nil => simp [Spoon.collect_runs]
  | cons p rest ih =>
    obtain ⟨t, payload, err⟩ := p
    cases err with
    | none => simp [Spoon.collect_runs, List.filter_cons, ih]
    | some e => simp [Spoon.collect_runs, List.filter_cons, ih]

/-- C10: whenever `run` succeeds, the top-level `provider_used` is
`_infer_provider` applied to `metadata.tool_calls`, and `metadata.tool_calls`
is exactly the list of tool names whose recorded run carries no error — so the
reported provider is a function of the successful tool names alone (the LLM
provider that produced the answer text is carried separately in
`metadata.summary_provider`). -/
theorem Spoon.provider_used_from_successful_tools (env : Spoon.Env) (q u : String)
    (k : Nat) (rw : Bool) :
    match Spoon.run env q u k rw with
    | .success _ _ prov meta =>
        prov = Spoon.infer_provider meta.tool_calls
        ∧ meta.tool_calls
          = (meta.tool_runs.filter (fun r => r.error = none)).map (fun r => r.tool)
    | _ => True := by
  by_cases he : env.enabled = false
  · simp [Spoon.run, he]
  · unfold Spoon.run
    rw [if_neg he]
    rcases hs : (Spoon.summarize_with_llm env q (Spoon.run_prioritized env q k rw)
        (Spoon.run_intent_arg env q k rw)).1 with _ | t
    · rcases hsyn : Spoon.synthesize_response q (Spoon.run_prioritized env q k rw)
          (Spoon.run_intent_arg env q k rw) with _ | t2
      · simp only [hs, hsyn]
      · simp only [hs, hsyn]
        exact ⟨trivial, Spoon.collect_runs_calls _ _ _⟩
    · simp only [hs]
      exact ⟨trivial, Spoon.collect_runs_calls _ _ _⟩

set_option maxRecDepth 4000 in
/-- C5 counterexample: in the stubbed environment the detected intent is
`policy`, so the plan is the single policy tool — yet `_derive_tool_queries`
still invokes `_split_query_by_intent` (flag `true`), and the planned tool
runs with the split sub-query `"P"` instead of the rewritten query `"q"`. -/
theorem Spoon.single_tool_plan_still_splits :
    Spoon.plan_tools (Spoon.detect_intent Spoon.envSplitCex "q").1 = ["policy_txt_lookup"]
    ∧ (Spoon.derive_tool_queries Spoon.envSplitCex ["policy_txt_lookup"] "q" "q").2 = true
    ∧ Spoon.lookupQ
        (Spoon.derive_tool_queries Spoon.envSplitCex ["policy_txt_lookup"] "q" "q").1
        "policy_txt_lookup" "q" = "P" :=
  ⟨by decide, by decide, by decide⟩

/-- C5 (amended): the query-splitting call is issued for every non-empty tool
plan — including single-tool plans — and for a single-tool plan the planned
tool uses the split sub-query matching its own category when the split
produced one, falling back to the rewritten query otherwise. -/
theorem Spoon.split_called_for_every_plan (env : Spoon.Env) (uq rq : String) :
    (∀ plan, plan ≠ [] → (Spoon.derive_tool_queries env plan uq rq).2 = true)
    ∧ ∀ t, Spoon.lookupQ (Spoon.derive_tool_queries env [t] uq rq).1 t rq
        = (if t = "policy_txt_lookup" then
            match (Spoon.split_query_by_intent env uq rq).1 with
            | some pq => pq
            | none => rq
          else if t = "ops_txt_lookup" then
            match (Spoon.split_query_by_intent env uq rq).2 with
            | some oq => oq
            | none => rq
          else rq) := by
  constructor
  · intro plan hne
    simp only [Spoon.derive_tool_queries]
    rw [if_neg hne]
    split
    · simp
    · split <;> simp
  · intro t
    have hne : ¬([t] : List String) = [] := by simp
    have hlen : ([t] : List String).length = 1 := by simp
    simp only [Spoon.derive_tool_queries]
    rw [if_neg hne, if_pos hlen]
    rcases h1 : (Spoon.split_query_by_intent env uq rq).1 with _ | pq <;>
      rcases h2 : (Spoon.split_query_by_intent env uq rq).2 with _ | oq <;>
      by_cases hp : t = "policy_txt_lookup" <;>
      by_cases ho : t = "ops_txt_lookup" <;>
      simp_all [Spoon.setQ, Spoon.lookupQ]

/-- C5 witness: the amended theorem applied to the stub environment and the
one-tool plan, discharging the non-empty-plan hypothesis. -/
theorem Spoon.split_called_for_every_plan_witness :
    (["policy_txt_lookup"] : List String) ≠ []
    ∧ (Spoon.derive_tool_queries Spoon.envSplitCex ["policy_txt_lookup"] "q" "q").2
        = true :=
  ⟨by decide, (Spoon.split_called_for_every_plan Spoon.envSplitCex "q" "q").1
    ["policy_txt_lookup"] (by decide)⟩

theorem Rag.attempt_loop_success_spec (env : Rag.GenEnv) (N : Nat) (c : Option String)
    (hN : N < env.maxRetries)
    (hfail : ∀ i, i < N → Rag.isRateClassFailure (env.chat i) = true)
    (hok : env.chat N = .ok c) :
    ∀ n j, j ≤ N → N - j = n →
      Rag.attempt_loop env j j
        = (some c, N + 1, (List.range' j (N - j)).map
            (fun i => min (env.baseDelay * 2 ^ i) env.maxDelay + env.jitter i)) := by
  intro n
  induction n with
  | zero =>
    intro j hj h0
    have hjN : j = N := by omega
    subst hjN
    unfold Rag.attempt_loop
    rw [if_pos hN, hok]
    simp [h0]
  | succ n ih =>
    intro j hj hn
    have hjN : j < N := by omega
    have hcls := hfail j hjN
    unfold Rag.attempt_loop
    rw [if_pos (by omega : j < env.maxRetries)]
    have hrange : N - j = (N - (j + 1)) + 1 := by omega
    cases hc : env.chat j with
    | ok c' =>
      rw [hc] at hcls
      simp [Rag.isRateClassFailure] at hcls
    | rateLimitError m =>
      dsimp only
      rw [if_pos (by omega : j < env.maxRetries - 1)]
      rw [ih (j + 1) (by omega) (by omega)]
      rw [hrange, List.range'_succ]
      simp
    | exn m =>
      rw [hc] at hcls
      simp only [Rag.isRateClassFailure] at hcls
      dsimp only
      rw [if_pos hcls]
      rw [if_pos (by omega : j < env.maxRetries - 1)]
      rw [ih (j + 1) (by omega) (by omega)]
      rw [hrange, List.range'_succ]
      simp

theorem Rag.attempt_loop_exhaust_spec (env : Rag.GenEnv)
    (hfail : ∀ i, i < env.maxRetries → Rag.isRateClassFailure (env.chat i) = true) :
    ∀ n j, j < env.maxRetries → env.maxRetries - 1 - j = n →
      Rag.attempt_loop env j j
        = (none, env.maxRetries, (List.range' j (env.maxRetries - 1 - j)).map
            (fun i => min (env.baseDelay * 2 ^ i) env.maxDelay + env.jitter i)) := by
  intro n
  induction n with
  | zero =>
    intro j hj h0
    have hlast : ¬ j < env.maxRetries - 1 := by omega
    have hcls := hfail j hj
    unfold Rag.attempt_loop
    rw [if_pos hj]
    have hj1 : j + 1 = env.maxRetries := by omega
    cases hc : env.chat j with
    | ok c' =>
      rw [hc] at hcls
      simp [Rag.isRateClassFailure] at hcls
    | rateLimitError m =>
      dsimp only
      rw [if_neg hlast, h0, hj1]
      simp
    | exn m =>
      rw [hc] at hcls
      simp only [Rag.isRateClassFailure] at hcls
      dsimp only
      rw [if_pos hcls, if_neg hlast, h0, hj1]
      simp
  | succ n ih =>
    intro j hj hn
    have hcls := hfail j hj
    unfold Rag.attempt_loop
    rw [if_pos hj]
    have hrange : env.maxRetries - 1 - j = (env.maxRetries - 1 - (j + 1)) + 1 := by omega
    cases hc : env.chat j with
    | ok c' =>
      rw [hc] at hcls
      simp [Rag.isRateClassFailure] at hcls
    | rateLimitError m =>
      dsimp only
      rw [if_pos (by omega : j < env.maxRetries - 1)]
      rw [ih (j + 1) (by omega) (by omega)]
      rw [hrange, List.range'_succ]
      simp
    | exn m =>
      rw [hc] at hcls
      simp only [Rag.isRateClassFailure] at hcls
      dsimp only
      rw [if_pos hcls]
      rw [if_pos (by omega : j < env.maxRetries - 1)]
      rw [ih (j + 1) (by omega) (by omega)]
      rw [hrange, List.range'_succ]
      simp

/-- C2: for the primary answer-generation call, every rate-limit-class failure
(typed `RateLimitError`, or an exception whose lowercased text contains a
rate-limit / quota / 429 marker) with attempts remaining is retried on the same
model after a backoff sleep of exactly
`min(base_delay * 2 ^ attempt, max_delay) + jitter`; a stub that fails
rate-limit-class exactly `N < max_retries` times and then answers succeeds on
attempt `N + 1` of the *first* Gemini model (with the full sleep log), while a
stub that fails the whole retry budget of the first model forces advancement to
the second model of the Gemini chain, which then answers on its first attempt. -/
theorem Rag.retry_same_model_then_advance (env : Rag.GenEnv) (N : Nat)
    (c : Option String) (hLLM : env.hasLLM = true) :
    ((N < env.maxRetries ∧ (∀ i, i < N → Rag.isRateClassFailure (env.chat i) = true)
        ∧ env.chat N = .ok c) →
      Rag.gemini_loop env (Rag.gemini_models env) 0
        = (some (c, "gemini-" ++ env.geminiModel), N + 1,
            (List.range N).map
              (fun i => min (env.baseDelay * 2 ^ i) env.maxDelay + env.jitter i))
      ∧ (Rag.generate_response env).1
        = ⟨c, some ("gemini-" ++ env.geminiModel), none⟩)
    ∧ (((∀ i, i < env.maxRetries → Rag.isRateClassFailure (env.chat i) = true)
        ∧ 1 ≤ env.maxRetries ∧ env.chat env.maxRetries = .ok c) →
      Rag.gemini_loop env (Rag.gemini_models env) 0
        = (some (c, "gemini-" ++ "gemini-2.0-flash-exp"), env.maxRetries + 1,
            (List.range (env.maxRetries - 1)).map
              (fun i => min (env.baseDelay * 2 ^ i) env.maxDelay + env.jitter i))
      ∧ (Rag.generate_response env).1
        = ⟨c, some ("gemini-" ++ "gemini-2.0-flash-exp"), none⟩) := by
  constructor
  · rintro ⟨hN, hfail, hok⟩
    have hattempt := Rag.attempt_loop_success_spec env N c hN hfail hok N 0
      (Nat.zero_le N) rfl
    rw [Nat.sub_zero, ← List.range_eq_range'] at hattempt
    have hloop : Rag.gemini_loop env (Rag.gemini_models env) 0
        = (some (c, "gemini-" ++ env.geminiModel), N + 1,
            (List.range N).map
              (fun i => min (env.baseDelay * 2 ^ i) env.maxDelay + env.jitter i)) := by
      simp only [Rag.gemini_models, Rag.gemini_loop, hattempt]
    refine ⟨hloop, ?_⟩
    simp only [Rag.generate_response, hLLM]
    rw [hloop]
    simp
  · rintro ⟨hfail, hpos, hok⟩
    have hattempt := Rag.attempt_loop_exhaust_spec env hfail (env.maxRetries - 1 - 0) 0
      (by omega) rfl
    rw [Nat.sub_zero, ← List.range_eq_range'] at hattempt
    have hsecond : Rag.attempt_loop env 0 env.maxRetries
        = (some c, env.maxRetries + 1, []) := by
      unfold Rag.attempt_loop
      rw [if_pos (by omega : 0 < env.maxRetries), hok]
    have hloop : Rag.gemini_loop env (Rag.gemini_models env) 0
        = (some (c, "gemini-" ++ "gemini-2.0-flash-exp"), env.maxRetries + 1,
            (List.range (env.maxRetries - 1)).map
              (fun i => min (env.baseDelay * 2 ^ i) env.maxDelay + env.jitter i)) := by
      simp only [Rag.gemini_models, Rag.gemini_loop, hattempt, hsecond]
      simp
    refine ⟨hloop, ?_⟩
    simp only [Rag.generate_response, hLLM]
    rw [hloop]
    simp

/-- C2 witness: the retry theorem applied to two concrete stubs — one that
rate-limits twice and then answers (success on attempt 3 of the first model),
and one that throws HTTP-429 errors for the whole first-model budget and then
answers (advancement to the second model). -/
theorem Rag.retry_same_model_then_advance_witness :
    Rag.gemini_loop Rag.envTwoRateLimits (Rag.gemini_models Rag.envTwoRateLimits) 0
      = (some (some "hi", "gemini-" ++ Rag.envTwoRateLimits.geminiModel), 2 + 1,
          (List.range 2).map
            (fun i => min (Rag.envTwoRateLimits.baseDelay * 2 ^ i)
              Rag.envTwoRateLimits.maxDelay + Rag.envTwoRateLimits.jitter i))
    ∧ (Rag.generate_response Rag.envExhaustFirstModel).1
      = ⟨some "ok", some ("gemini-" ++ "gemini-2.0-flash-exp"), none⟩ :=
  ⟨((Rag.retry_same_model_then_advance Rag.envTwoRateLimits 2 (some "hi") rfl).1
      ⟨by decide, by intro i hi; interval_cases i <;> decide, by decide⟩).1,
   ((Rag.retry_same_model_then_advance Rag.envExhaustFirstModel 0 (some "ok") rfl).2
      ⟨by intro i hi
          have hi3 : i < 3 := hi
          interval_cases i <;> decide,
        by decide, by decide⟩).2⟩

theorem Spoon.take_chunk_spec (cap : Nat) (n : Nat) :
    ∀ (acc xs : List Spoon.Item), ∃ m, m ≤ n ∧
      Spoon.take_chunk cap n acc xs = (acc ++ xs.take m, xs.drop m) := by
  induction n with
  | zero =>
    intro acc xs
    exact ⟨0, le_rfl, by simp [Spoon.take_chunk]⟩
  | succ n ih =>
    intro acc xs
    by_cases hcap : cap ≤ acc.length
    · exact ⟨0, Nat.zero_le _, by simp [Spoon.take_chunk, hcap]⟩
    · cases xs with
      | nil => exact ⟨0, Nat.zero_le _, by simp [Spoon.take_chunk, hcap]⟩
      | cons x rest =>
        obtain ⟨m, hm, heq⟩ := ih (acc ++ [x]) rest
        refine ⟨m + 1, by omega, ?_⟩
        simp only [Spoon.take_chunk, if_neg hcap]
        rw [heq]
        simp [List.append_assoc]

theorem Spoon.take_chunk_length_le (cap : Nat) (n : Nat) :
    ∀ (acc xs : List Spoon.Item), acc.length ≤ cap →
      (Spoon.take_chunk cap n acc xs).1.length ≤ cap := by
  induction n with
  | zero => intro acc xs h; simpa [Spoon.take_chunk] using h
  | succ n ih =>
    intro acc xs h
    by_cases hcap : cap ≤ acc.length
    · simpa [Spoon.take_chunk, hcap] using h
    · cases xs with
      | nil => simpa [Spoon.take_chunk, hcap] using h
      | cons x rest =>
        simp only [Spoon.take_chunk, if_neg hcap]
        exact ih (acc ++ [x]) rest (by simp; omega)

theorem Spoon.take_chunk_full (cap : Nat) (n : Nat) :
    ∀ (acc xs : List Spoon.Item), n ≤ xs.length →
      (Spoon.take_chunk cap n acc xs).1.length < cap →
      Spoon.take_chunk cap n acc xs = (acc ++ xs.take n, xs.drop n) := by
  induction n with
  | zero => intro acc xs _ _; simp [Spoon.take_chunk]
  | succ n ih =>
    intro acc xs hn hlt
    by_cases hcap : cap ≤ acc.length
    · simp only [Spoon.take_chunk, if_pos hcap] at hlt
      omega
    · cases xs with
      | nil => simp at hn
      | cons x rest =>
        simp only [Spoon.take_chunk, if_neg hcap] at hlt ⊢
        rw [ih (acc ++ [x]) rest (by simpa using hn) hlt]
        simp [List.append_assoc]

theorem Spoon.lookupB_updateB_ne (bs : List (String × List Spoon.Item))
    (k k' : String) (nb : List Spoon.Item) (h : k' ≠ k) :
    Spoon.lookupB (Spoon.updateB bs k nb) k' = Spoon.lookupB bs k' := by
  induction bs with
  | nil => simp [Spoon.updateB, Spoon.lookupB]
  | cons p rest ih =>
    obtain ⟨k0, b⟩ := p
    simp only [Spoon.updateB, Spoon.lookupB]
    by_cases h0 : k0 = k
    · rw [if_pos h0]
      simp only [Spoon.lookupB]
      subst h0
      rw [if_neg (fun hh => h hh.symm), if_neg (fun hh => h hh.symm)]
    · rw [if_neg h0]
      simp only [Spoon.lookupB]
      by_cases h1 : k0 = k'
      · rw [if_pos h1, if_pos h1]
      · rw [if_neg h1, if_neg h1]
        exact ih

theorem Spoon.lookupB_mem (bs : List (String × List Spoon.Item)) (k : String)
    (x : Spoon.Item) (hx : x ∈ Spoon.lookupB bs k) :
    ∃ p ∈ bs, x ∈ p.2 := by
  induction bs with
  | nil => simp [Spoon.lookupB] at hx
  | cons p rest ih =>
    obtain ⟨k0, b⟩ := p
    simp only [Spoon.lookupB] at hx
    by_cases h0 : k0 = k
    · rw [if_pos h0] at hx
      exact ⟨(k0, b), by simp, hx⟩
    · rw [if_neg h0] at hx
      obtain ⟨p, hp, hxp⟩ := ih hx
      exact ⟨p, by simp [hp], hxp⟩

theorem Spoon.updateB_mem (bs : List (String × List Spoon.Item)) (k : String)
    (nb : List Spoon.Item) (p : String × List Spoon.Item)
    (hp : p ∈ Spoon.updateB bs k nb) :
    p ∈ bs ∨ p = (k, nb) := by
  induction bs with
  | nil => simp [Spoon.updateB] at hp
  | cons q rest ih =>
    obtain ⟨k0, b⟩ := q
    simp only [Spoon.updateB] at hp
    by_cases h0 : k0 = k
    · rw [if_pos h0] at hp
      subst h0
      rcases List.mem_cons.mp hp with hp | hp
      · exact Or.inr hp
      · exact Or.inl (List.mem_cons_of_mem _ hp)
    · rw [if_neg h0] at hp
      rcases List.mem_cons.mp hp with hp | hp
      · exact Or.inl (hp ▸ List.mem_cons_self _ _)
      · rcases ih hp with hp | hp
        · exact Or.inl (List.mem_cons_of_mem _ hp)
        · exact Or.inr hp

theorem Spoon.countKey_append (k : String) (l1 l2 : List Spoon.Item) :
    Spoon.countKey k (l1 ++ l2) = Spoon.countKey k l1 + Spoon.countKey k l2 := by
  simp [Spoon.countKey, List.filter_append]

theorem Spoon.countKey_eq_zero_of_ne (k k0 : String) (l : List Spoon.Item)
    (hall : ∀ x ∈ l, Spoon.bucket_key x = k0) (hk : k ≠ k0) :
    Spoon.countKey k l = 0 := by
  simp only [Spoon.countKey, List.length_eq_zero, List.filter_eq_nil_iff,
    decide_eq_true_eq]
  intro x hx
  rw [hall x hx]
  exact fun hh => hk hh.symm

theorem Spoon.countKey_eq_length_of_all (k : String) (l : List Spoon.Item)
    (hall : ∀ x ∈ l, Spoon.bucket_key x = k) :
    Spoon.countKey k l = l.length := by
  simp only [Spoon.countKey]
  rw [List.filter_eq_self.mpr]
  intro x hx
  simp [hall x hx]

theorem Spoon.countKey_mono_prefix (k : String) (p l : List Spoon.Item)
    (h : p <+: l) : Spoon.countKey k p ≤ Spoon.countKey k l := by
  simp only [Spoon.countKey]
  exact List.Sublist.length_le (List.Sublist.filter _ h.sublist)

theorem Spoon.insKeys_mem (k : String) (ks : List String) :
    ∀ acc, k ∈ Spoon.insKeys acc ks ↔ k ∈ acc ∨ k ∈ ks := by
  induction ks with
  | nil => intro acc; simp [Spoon.insKeys]
  | cons k0 ks ih =>
    intro acc
    simp only [Spoon.insKeys]
    by_cases h0 : k0 ∈ acc
    · rw [if_pos h0, ih]
      constructor
      · rintro (h | h)
        · exact Or.inl h
        · exact Or.inr (List.mem_cons_of_mem _ h)
      · rintro (h | h)
        · exact Or.inl h
        · rcases List.mem_cons.mp h with h | h
          · exact Or.inl (h ▸ h0)
          · exact Or.inr h
    · rw [if_neg h0, ih]
      simp only [List.mem_append, List.mem_singleton, List.mem_cons]
      tauto

theorem Spoon.insKeys_nodup (ks : List String) :
    ∀ acc, acc.Nodup → (Spoon.insKeys acc ks).Nodup := by
  induction ks with
  | nil => intro acc h; simpa [Spoon.insKeys] using h
  | cons k0 ks ih =>
    intro acc h
    simp only [Spoon.insKeys]
    by_cases h0 : k0 ∈ acc
    · rw [if_pos h0]
      exact ih acc h
    · rw [if_neg h0]
      refine ih _ ?_
      rw [List.nodup_append]
      exact ⟨h, List.nodup_singleton _, by
        intro a ha
        simp only [List.mem_singleton]
        intro hEq
        exact h0 (hEq ▸ ha)⟩

theorem Spoon.toolOrdering_nodup (ts : List String) :
    ∀ acc, acc.Nodup → (Spoon.toolOrdering acc ts).Nodup := by
  induction ts with
  | nil => intro acc h; simpa [Spoon.toolOrdering] using h
  | cons t ts ih =>
    intro acc h
    simp only [Spoon.toolOrdering]
    cases Spoon.tool_to_doc t with
    | none => exact ih acc h
    | some d =>
      dsimp only
      by_cases hd : d ∈ acc
      · rw [if_pos hd]
        exact ih acc h
      · rw [if_neg hd]
        refine ih _ ?_
        rw [List.nodup_append]
        exact ⟨h, List.nodup_singleton _, by
          intro a ha
          simp only [List.mem_singleton]
          intro hEq
          exact hd (hEq ▸ ha)⟩

theorem Spoon.lookupB_WF (bs : List (String × List Spoon.Item)) (k : String)
    (hwf : ∀ p ∈ bs, ∀ x ∈ p.2, Spoon.bucket_key x = p.1) :
    ∀ x ∈ Spoon.lookupB bs k, Spoon.bucket_key x = k := by
  induction bs with
  | nil => simp [Spoon.lookupB]
  | cons p rest ih =>
    obtain ⟨k0, b⟩ := p
    simp only [Spoon.lookupB]
    by_cases h0 : k0 = k
    · rw [if_pos h0]
      intro x hx
      rw [hwf (k0, b) (by simp) x hx, h0]
    · rw [if_neg h0]
      exact ih (fun p hp => hwf p (List.mem_cons_of_mem _ hp))

theorem Spoon.updateB_WF (bs : List (String × List Spoon.Item)) (k : String)
    (nb : List Spoon.Item)
    (hwf : ∀ p ∈ bs, ∀ x ∈ p.2, Spoon.bucket_key x = p.1)
    (hnb : ∀ x ∈ nb, Spoon.bucket_key x = k) :
    ∀ p ∈ Spoon.updateB bs k nb, ∀ x ∈ p.2, Spoon.bucket_key x = p.1 := by
  intro p hp
  rcases Spoon.updateB_mem bs k nb p hp with hp' | hp'
  · exact hwf p hp'
  · subst hp'
    exact hnb

theorem Spoon.fp_res_spec (cap minPer : Nat) (acc b : List Spoon.Item) :
    ∃ m, m ≤ min minPer b.length ∧
      (if b.isEmpty then (acc, b)
        else Spoon.take_chunk cap (min minPer b.length) acc b)
        = (acc ++ b.take m, b.drop m)
      ∧ (acc.length ≤ cap → (acc ++ b.take m).length ≤ cap) := by
  cases b with
  | nil =>
    refine ⟨0, by simp, by simp, ?_⟩
    intro h
    simpa using h
  | cons x rest =>
    obtain ⟨m, hm, heq⟩ :=
      Spoon.take_chunk_spec cap (min minPer (x :: rest).length) acc (x :: rest)
    refine ⟨m, hm, by simpa using heq, ?_⟩
    intro h
    have := Spoon.take_chunk_length_le cap (min minPer (x :: rest).length) acc
      (x :: rest) h
    rw [heq] at this
    exact this

theorem Spoon.first_pass_prefix (cap minPer : Nat) (ks : List String) :
    ∀ (bs : List (String × List Spoon.Item)) (acc : List Spoon.Item),
      acc <+: (Spoon.first_pass cap minPer ks bs acc).1 := by
  induction ks with
  | nil => intro bs acc; simp [Spoon.first_pass]
  | cons k ks ih =>
    intro bs acc
    obtain ⟨m, hm, hres, hlen⟩ := Spoon.fp_res_spec cap minPer acc (Spoon.lookupB bs k)
    simp only [Spoon.first_pass]
    rw [hres]
    split
    · exact List.prefix_append acc _
    · exact (List.prefix_append acc _).trans (ih _ _)

theorem Spoon.first_pass_length_le (cap minPer : Nat) (ks : List String) :
    ∀ (bs : List (String × List Spoon.Item)) (acc : List Spoon.Item),
      acc.length ≤ cap → (Spoon.first_pass cap minPer ks bs acc).1.length ≤ cap := by
  induction ks with
  | nil => intro bs acc h; simpa [Spoon.first_pass] using h
  | cons k ks ih =>
    intro bs acc h
    obtain ⟨m, hm, hres, hlen⟩ := Spoon.fp_res_spec cap minPer acc (Spoon.lookupB bs k)
    simp only [Spoon.first_pass]
    rw [hres]
    split
    · exact hlen h
    · exact ih _ _ (hlen h)

theorem Spoon.first_pass_count_untouched (cap minPer : Nat) (ks : List String) :
    ∀ (bs : List (String × List Spoon.Item)) (acc : List Spoon.Item) (k : String),
      (∀ p ∈ bs, ∀ x ∈ p.2, Spoon.bucket_key x = p.1) → k ∉ ks →
      Spoon.countKey k (Spoon.first_pass cap minPer ks bs acc).1
        = Spoon.countKey k acc := by
  induction ks with
  | nil => intro bs acc k _ _; simp [Spoon.first_pass]
  | cons k0 ks ih =>
    intro bs acc k hwf hk
    have hk0 : k ≠ k0 := fun h => hk (h ▸ List.mem_cons_self _ _)
    have hks : k ∉ ks := fun h => hk (List.mem_cons_of_mem _ h)
    obtain ⟨m, hm, hres, hlen⟩ := Spoon.fp_res_spec cap minPer acc (Spoon.lookupB bs k0)
    have hchunk : Spoon.countKey k ((Spoon.lookupB bs k0).take m) = 0 := by
      refine Spoon.countKey_eq_zero_of_ne k k0 _ ?_ hk0
      intro x hx
      exact Spoon.lookupB_WF bs k0 hwf x (List.mem_of_mem_take hx)
    have hacc1 : Spoon.countKey k (acc ++ (Spoon.lookupB bs k0).take m)
        = Spoon.countKey k acc := by
      rw [Spoon.countKey_append, hchunk]
      omega
    have hwf1 : ∀ p ∈ Spoon.updateB bs k0 ((Spoon.lookupB bs k0).drop m),
        ∀ x ∈ p.2, Spoon.bucket_key x = p.1 := by
      refine Spoon.updateB_WF bs k0 _ hwf ?_
      intro x hx
      exact Spoon.lookupB_WF bs k0 hwf x (List.mem_of_mem_drop hx)
    simp only [Spoon.first_pass]
    rw [hres]
    split
    · rw [Spoon.countKey_append, hchunk]
      omega
    · rw [ih _ _ k hwf1 hks, Spoon.countKey_append, hchunk]
      omega

theorem Spoon.countKey_le_length (k : String) (l : List Spoon.Item) :
    Spoon.countKey k l ≤ l.length :=
  List.length_filter_le _ l

theorem Spoon.first_pass_count_le (cap minPer : Nat) (ks : List String) :
    ∀ (bs : List (String × List Spoon.Item)) (acc : List Spoon.Item) (k : String),
      (∀ p ∈ bs, ∀ x ∈ p.2, Spoon.bucket_key x = p.1) → ks.Nodup →
      Spoon.countKey k (Spoon.first_pass cap minPer ks bs acc).1
        ≤ Spoon.countKey k acc + min minPer (Spoon.lookupB bs k).length := by
  induction ks with
  | nil => intro bs acc k _ _; simp [Spoon.first_pass]
  | cons k0 ks ih =>
    intro bs acc k hwf hnd
    rcases List.nodup_cons.mp hnd with ⟨hk0ks, hndks⟩
    obtain ⟨m, hm, hres, hlen⟩ := Spoon.fp_res_spec cap minPer acc (Spoon.lookupB bs k0)
    have hkeyed : ∀ x ∈ (Spoon.lookupB bs k0).take m, Spoon.bucket_key x = k0 :=
      fun x hx => Spoon.lookupB_WF bs k0 hwf x (List.mem_of_mem_take hx)
    have hwf1 : ∀ p ∈ Spoon.updateB bs k0 ((Spoon.lookupB bs k0).drop m),
        ∀ x ∈ p.2, Spoon.bucket_key x = p.1 :=
      Spoon.updateB_WF bs k0 _ hwf
        (fun x hx => Spoon.lookupB_WF bs k0 hwf x (List.mem_of_mem_drop hx))
    have hchunk_le : Spoon.countKey k (acc ++ (Spoon.lookupB bs k0).take m)
        ≤ Spoon.countKey k acc + min minPer (Spoon.lookupB bs k).length := by
      rw [Spoon.countKey_append]
      by_cases hkk : k = k0
      · subst hkk
        have h1 : Spoon.countKey k ((Spoon.lookupB bs k).take m)
            ≤ ((Spoon.lookupB bs k).take m).length := Spoon.countKey_le_length _ _
        have h2 : ((Spoon.lookupB bs k).take m).length ≤ m := by
          simp [List.length_take]
        omega
      · rw [Spoon.countKey_eq_zero_of_ne k k0 _ hkeyed hkk]
        omega
    simp only [Spoon.first_pass]
    rw [hres]
    split
    · exact hchunk_le
    · by_cases hkk : k = k0
      · subst hkk
        rw [Spoon.first_pass_count_untouched cap minPer ks _ _ k hwf1 hk0ks]
        exact hchunk_le
      · have hlook : Spoon.lookupB (Spoon.updateB bs k0 ((Spoon.lookupB bs k0).drop m)) k
            = Spoon.lookupB bs k :=
          Spoon.lookupB_updateB_ne bs k0 k _ hkk
        have := ih _ (acc ++ (Spoon.lookupB bs k0).take m) k hwf1 hndks
        rw [hlook] at this
        refine this.trans ?_
        rw [Spoon.countKey_append, Spoon.countKey_eq_zero_of_ne k k0 _ hkeyed hkk]
        omega

theorem Spoon.first_pass_cons_spec (cap minPer : Nat) (k : String) (ks : List String)
    (bs : List (String × List Spoon.Item)) (acc : List Spoon.Item) :
    ∃ m, m ≤ min minPer (Spoon.lookupB bs k).length ∧
      (acc.length ≤ cap → (acc ++ (Spoon.lookupB bs k).take m).length ≤ cap) ∧
      Spoon.first_pass cap minPer (k :: ks) bs acc
        = (if cap ≤ (acc ++ (Spoon.lookupB bs k).take m).length
          then (acc ++ (Spoon.lookupB bs k).take m,
            Spoon.updateB bs k ((Spoon.lookupB bs k).drop m))
          else Spoon.first_pass cap minPer ks
            (Spoon.updateB bs k ((Spoon.lookupB bs k).drop m))
            (acc ++ (Spoon.lookupB bs k).take m)) ∧
      ((Spoon.first_pass cap minPer (k :: ks) bs acc).1.length < cap →
        m = min minPer (Spoon.lookupB bs k).length) := by
  obtain ⟨m, hm, hres, hlen⟩ := Spoon.fp_res_spec cap minPer acc (Spoon.lookupB bs k)
  have heq : Spoon.first_pass cap minPer (k :: ks) bs acc
      = (if cap ≤ (acc ++ (Spoon.lookupB bs k).take m).length
        then (acc ++ (Spoon.lookupB bs k).take m,
          Spoon.updateB bs k ((Spoon.lookupB bs k).drop m))
        else Spoon.first_pass cap minPer ks
          (Spoon.updateB bs k ((Spoon.lookupB bs k).drop m))
          (acc ++ (Spoon.lookupB bs k).take m)) := by
    simp only [Spoon.first_pass]
    rw [hres]
  refine ⟨m, hm, hlen, heq, ?_⟩
  intro hfin
  rw [heq] at hfin
  have hacc1 : (acc ++ (Spoon.lookupB bs k).take m).length < cap := by
    by_cases hstop : cap ≤ (acc ++ (Spoon.lookupB bs k).take m).length
    · rw [if_pos hstop] at hfin
      exact hfin
    · have hpre := Spoon.first_pass_prefix cap minPer ks
        (Spoon.updateB bs k ((Spoon.lookupB bs k).drop m))
        (acc ++ (Spoon.lookupB bs k).take m)
      rw [if_neg hstop] at hfin
      have := hpre.length_le
      omega
  cases hbk : Spoon.lookupB bs k with
  | nil =>
    rw [hbk] at hm
    simp at hm ⊢
    omega
  | cons x rest =>
    have hcond : ¬ ((Spoon.lookupB bs k).isEmpty = true) := by
      rw [hbk]
      simp
    have hres' : Spoon.take_chunk cap (min minPer (Spoon.lookupB bs k).length) acc
        (Spoon.lookupB bs k)
        = (acc ++ (Spoon.lookupB bs k).take m, (Spoon.lookupB bs k).drop m) := by
      rw [if_neg hcond] at hres
      exact hres
    have hlt : (Spoon.take_chunk cap (min minPer (Spoon.lookupB bs k).length) acc
        (Spoon.lookupB bs k)).1.length < cap := by
      rw [hres']
      exact hacc1
    have hfull := Spoon.take_chunk_full cap (min minPer (Spoon.lookupB bs k).length) acc
      (Spoon.lookupB bs k) (Nat.min_le_right _ _) hlt
    rw [hres'] at hfull
    have htake : (Spoon.lookupB bs k).take m
        = (Spoon.lookupB bs k).take (min minPer (Spoon.lookupB bs k).length) := by
      have h1 := congrArg Prod.fst hfull
      simpa using h1
    have hm' : m ≤ (Spoon.lookupB bs k).length := le_trans hm (Nat.min_le_right _ _)
    have hlena := congrArg List.length htake
    rw [List.length_take, List.length_take, Nat.min_eq_left hm',
      Nat.min_eq_left (Nat.min_le_right _ _)] at hlena
    rw [hbk] at hlena
    exact hlena

theorem Spoon.first_pass_count_ge (cap minPer : Nat) (ks : List String) :
    ∀ (bs : List (String × List Spoon.Item)) (acc : List Spoon.Item),
      (∀ p ∈ bs, ∀ x ∈ p.2, Spoon.bucket_key x = p.1) → ks.Nodup →
      (Spoon.first_pass cap minPer ks bs acc).1.length < cap →
      ∀ k ∈ ks, Spoon.countKey k acc + min minPer (Spoon.lookupB bs k).length
        ≤ Spoon.countKey k (Spoon.first_pass cap minPer ks bs acc).1 := by
  induction ks with
  | nil => intro bs acc _ _ _ k hk; simp at hk
  | cons k0 ks ih =>
    intro bs acc hwf hnd hfin k hk
    rcases List.nodup_cons.mp hnd with ⟨hk0ks, hndks⟩
    obtain ⟨m, hm, hcap, heq, hfull⟩ := Spoon.first_pass_cons_spec cap minPer k0 ks bs acc
    have hmval := hfull hfin
    have hkeyed : ∀ y ∈ (Spoon.lookupB bs k0).take m, Spoon.bucket_key y = k0 :=
      fun y hy => Spoon.lookupB_WF bs k0 hwf y (List.mem_of_mem_take hy)
    have hwf1 : ∀ p ∈ Spoon.updateB bs k0 ((Spoon.lookupB bs k0).drop m),
        ∀ x ∈ p.2, Spoon.bucket_key x = p.1 :=
      Spoon.updateB_WF bs k0 _ hwf
        (fun y hy => Spoon.lookupB_WF bs k0 hwf y (List.mem_of_mem_drop hy))
    rw [heq] at hfin ⊢
    by_cases hstop : cap ≤ (acc ++ (Spoon.lookupB bs k0).take m).length
    · rw [if_pos hstop] at hfin
      dsimp only at hfin
      omega
    · rw [if_neg hstop] at hfin ⊢
      have hcnt_take : Spoon.countKey k0 ((Spoon.lookupB bs k0).take m) = m := by
        rw [Spoon.countKey_eq_length_of_all k0 _ hkeyed, List.length_take,
          Nat.min_eq_left (le_trans hm (Nat.min_le_right _ _))]
      rcases List.mem_cons.mp hk with hkk | hkk
      · subst hkk
        have hmono := Spoon.countKey_mono_prefix k (acc ++ (Spoon.lookupB bs k).take m) _
          (Spoon.first_pass_prefix cap minPer ks
            (Spoon.updateB bs k ((Spoon.lookupB bs k).drop m))
            (acc ++ (Spoon.lookupB bs k).take m))
        rw [Spoon.countKey_append, hcnt_take] at hmono
        omega
      · have hne : k ≠ k0 := fun h => hk0ks (h ▸ hkk)
        have hlook : Spoon.lookupB
            (Spoon.updateB bs k0 ((Spoon.lookupB bs k0).drop m)) k
            = Spoon.lookupB bs k :=
          Spoon.lookupB_updateB_ne bs k0 k _ hne
        have hih := ih _ (acc ++ (Spoon.lookupB bs k0).take m) hwf1 hndks hfin k hkk
        rw [hlook] at hih
        refine le_trans ?_ hih
        rw [Spoon.countKey_append, Spoon.countKey_eq_zero_of_ne k k0 _ hkeyed hne]
        omega

theorem Spoon.rr_once_prefix (cap : Nat) (ks : List String) :
    ∀ (bs : List (String × List Spoon.Item)) (acc : List Spoon.Item) (added : Bool),
      acc <+: (Spoon.rr_once cap ks bs acc added).2.1 := by
  induction ks with
  | nil => intro bs acc added; simp [Spoon.rr_once]
  | cons k ks ih =>
    intro bs acc added
    rw [Spoon.rr_once]
    cases hlk : Spoon.lookupB bs k with
    | nil => exact ih bs acc added
    | cons x rest =>
      dsimp only
      by_cases hc : acc.length < cap
      · rw [if_pos hc]
        exact (List.prefix_append acc [x]).trans (ih _ _ true)
      · rw [if_neg hc]
        exact ih bs acc added

theorem Spoon.rr_once_length_le (cap : Nat) (ks : List String) :
    ∀ (bs : List (String × List Spoon.Item)) (acc : List Spoon.Item) (added : Bool),
      acc.length ≤ cap → (Spoon.rr_once cap ks bs acc added).2.1.length ≤ cap := by
  induction ks with
  | nil => intro bs acc added h; simpa [Spoon.rr_once] using h
  | cons k ks ih =>
    intro bs acc added h
    rw [Spoon.rr_once]
    cases hlk : Spoon.lookupB bs k with
    | nil => exact ih bs acc added h
    | cons x rest =>
      dsimp only
      by_cases hc : acc.length < cap
      · rw [if_pos hc]
        exact ih _ _ true (by simp; omega)
      · rw [if_neg hc]
        exact ih bs acc added h

theorem Spoon.rr_once_bucket_items (cap : Nat) (ks : List String) :
    ∀ (bs : List (String × List Spoon.Item)) (acc : List Spoon.Item) (added : Bool)
      (x : Spoon.Item),
      (∃ p ∈ (Spoon.rr_once cap ks bs acc added).1, x ∈ p.2) →
      ∃ p ∈ bs, x ∈ p.2 := by
  induction ks with
  | nil =>
    intro bs acc added x hx
    simpa [Spoon.rr_once] using hx
  | cons k ks ih =>
    intro bs acc added x hx
    rw [Spoon.rr_once] at hx
    cases hlk : Spoon.lookupB bs k with
    | nil =>
      rw [hlk] at hx
      exact ih bs acc added x hx
    | cons y rest =>
      rw [hlk] at hx
      dsimp only at hx
      by_cases hc : acc.length < cap
      · rw [if_pos hc] at hx
        obtain ⟨p, hp, hxp⟩ := ih _ _ true x hx
        rcases Spoon.updateB_mem bs k rest p hp with hp' | hp'
        · exact ⟨p, hp', hxp⟩
        · subst hp'
          obtain ⟨q, hq, hxq⟩ := Spoon.lookupB_mem bs k x (by rw [hlk]; exact List.mem_cons_of_mem _ hxp)
          exact ⟨q, hq, hxq⟩
      · rw [if_neg hc] at hx
        exact ih bs acc added x hx

theorem Spoon.rr_once_mem (cap : Nat) (ks : List String) :
    ∀ (bs : List (String × List Spoon.Item)) (acc : List Spoon.Item) (added : Bool)
      (x : Spoon.Item),
      x ∈ (Spoon.rr_once cap ks bs acc added).2.1 →
      x ∈ acc ∨ ∃ p ∈ bs, x ∈ p.2 := by
  induction ks with
  | nil =>
    intro bs acc added x hx
    simp only [Spoon.rr_once] at hx
    exact Or.inl hx
  | cons k ks ih =>
    intro bs acc added x hx
    rw [Spoon.rr_once] at hx
    cases hlk : Spoon.lookupB bs k with
    | nil =>
      rw [hlk] at hx
      exact ih bs acc added x hx
    | cons y rest =>
      rw [hlk] at hx
      dsimp only at hx
      by_cases hc : acc.length < cap
      · rw [if_pos hc] at hx
        rcases ih _ _ true x hx with hx' | hx'
        · rcases List.mem_append.mp hx' with hx'' | hx''
          · exact Or.inl hx''
          · refine Or.inr (Spoon.lookupB_mem bs k x ?_)
            rw [hlk]
            simp only [List.mem_singleton] at hx''
            exact hx'' ▸ List.mem_cons_self _ _
        · obtain ⟨p, hp, hxp⟩ := hx'
          rcases Spoon.updateB_mem bs k rest p hp with hp' | hp'
          · exact Or.inr ⟨p, hp', hxp⟩
          · subst hp'
            refine Or.inr (Spoon.lookupB_mem bs k x ?_)
            rw [hlk]
            exact List.mem_cons_of_mem _ hxp
      · rw [if_neg hc] at hx
        exact ih bs acc added x hx

theorem Spoon.round_robin_prefix (cap : Nat) (ord : List String) :
    ∀ (n : Nat) (bs : List (String × List Spoon.Item)) (acc : List Spoon.Item),
      Spoon.bucketsSize bs ≤ n → acc <+: Spoon.round_robin cap ord bs acc := by
  intro n
  induction n with
  | zero =>
    intro bs acc hsz
    unfold Spoon.round_robin
    split
    · exact List.prefix_refl acc
    · dsimp only
      split
      · rename_i hadd
        have h1 := Spoon.rr_once_added_size cap ord bs acc hadd
        omega
      · exact Spoon.rr_once_prefix cap ord bs acc false
  | succ n ih =>
    intro bs acc hsz
    unfold Spoon.round_robin
    split
    · exact List.prefix_refl acc
    · dsimp only
      split
      · rename_i hadd
        have h1 := Spoon.rr_once_added_size cap ord bs acc hadd
        exact (Spoon.rr_once_prefix cap ord bs acc false).trans (ih _ _ (by omega))
      · exact Spoon.rr_once_prefix cap ord bs acc false

theorem Spoon.round_robin_length_le (cap : Nat) (ord : List String) :
    ∀ (n : Nat) (bs : List (String × List Spoon.Item)) (acc : List Spoon.Item),
      Spoon.bucketsSize bs ≤ n → acc.length ≤ cap →
      (Spoon.round_robin cap ord bs acc).length ≤ cap := by
  intro n
  induction n with
  | zero =>
    intro bs acc hsz h
    unfold Spoon.round_robin
    split
    · exact h
    · dsimp only
      split
      · rename_i hadd
        have h1 := Spoon.rr_once_added_size cap ord bs acc hadd
        omega
      · exact Spoon.rr_once_length_le cap ord bs acc false h
  | succ n ih =>
    intro bs acc hsz h
    unfold Spoon.round_robin
    split
    · exact h
    · dsimp only
      split
      · rename_i hadd
        have h1 := Spoon.rr_once_added_size cap ord bs acc hadd
        exact ih _ _ (by omega) (Spoon.rr_once_length_le cap ord bs acc false h)
      · exact Spoon.rr_once_length_le cap ord bs acc false h

theorem Spoon.round_robin_mem (cap : Nat) (ord : List String) :
    ∀ (n : Nat) (bs : List (String × List Spoon.Item)) (acc : List Spoon.Item)
      (x : Spoon.Item), Spoon.bucketsSize bs ≤ n →
      x ∈ Spoon.round_robin cap ord bs acc →
      x ∈ acc ∨ ∃ p ∈ bs, x ∈ p.2 := by
  intro n
  induction n with
  | zero =>
    intro bs acc x hsz hx
    rw [Spoon.round_robin] at hx
    split at hx
    · exact Or.inl hx
    · dsimp only at hx
      split at hx
      · rename_i hadd
        have h1 := Spoon.rr_once_added_size cap ord bs acc hadd
        omega
      · exact Spoon.rr_once_mem cap ord bs acc false x hx
  | succ n ih =>
    intro bs acc x hsz hx
    rw [Spoon.round_robin] at hx
    split at hx
    · exact Or.inl hx
    · dsimp only at hx
      split at hx
      · rename_i hadd
        have h1 := Spoon.rr_once_added_size cap ord bs acc hadd
        rcases ih _ _ x (by omega) hx with hx' | hx'
        · rcases Spoon.rr_once_mem cap ord bs acc false x hx' with hx'' | hx''
          · exact Or.inl hx''
          · exact Or.inr hx''
        · exact Or.inr (Spoon.rr_once_bucket_items cap ord bs acc false x hx')
      · exact Spoon.rr_once_mem cap ord bs acc false x hx

theorem Spoon.lookupB_map_keys (g : String → List Spoon.Item)
    (keys : List String) (k : String) :
    Spoon.lookupB (keys.map (fun j => (j, g j))) k
      = if k ∈ keys then g k else [] := by
  induction keys with
  | nil => simp [Spoon.lookupB]
  | cons k0 ks ih =>
    simp only [List.map_cons, Spoon.lookupB]
    by_cases h0 : k0 = k
    · subst h0; simp
    · have h0' : ¬(k = k0) := fun h => h0 h.symm
      rw [if_neg h0, ih]
      simp [List.mem_cons, h0']

theorem Spoon.mem_bucketKeys_of_countKey (ev : List Spoon.Item) (k : String)
    (h : Spoon.countKey k ev ≠ 0) : k ∈ Spoon.bucketKeys ev := by
  refine (Spoon.insKeys_mem k (ev.map Spoon.bucket_key) []).mpr (Or.inr ?_)
  have hx : ∃ x ∈ ev, Spoon.bucket_key x = k := by
    by_contra hno
    push_neg at hno
    apply h
    simp only [Spoon.countKey, List.length_eq_zero, List.filter_eq_nil_iff,
      decide_eq_true_eq]
    exact hno
  obtain ⟨x, hxe, hbx⟩ := hx
  exact List.mem_map.mpr ⟨x, hxe, hbx⟩

theorem Spoon.sorted_buckets_eq (ev : List Spoon.Item) :
    (Spoon.buckets_of ev).map (fun p => (p.1, Spoon.sortByDistance p.2))
      = (Spoon.bucketKeys ev).map
          (fun k => (k, Spoon.sortByDistance
            (ev.filter (fun x => Spoon.bucket_key x = k)))) := by
  rw [Spoon.buckets_of, List.map_map]
  rfl

theorem Spoon.sorted_buckets_keys (ev : List Spoon.Item) :
    (((Spoon.buckets_of ev).map
      (fun p => (p.1, Spoon.sortByDistance p.2))).map (fun p => p.1))
      = Spoon.bucketKeys ev := by
  rw [Spoon.buckets_of, List.map_map, List.map_map]
  exact List.map_id _

theorem Spoon.fairness_core (ev : List Spoon.Item) (ord : List String)
    (B : List (String × List Spoon.Item))
    (hwf : ∀ p ∈ B, ∀ x ∈ p.2, Spoon.bucket_key x = p.1)
    (hnd : ord.Nodup)
    (hlen : ∀ k, (Spoon.lookupB B k).length ≤ Spoon.countKey k ev)
    (hlen2 : ∀ k, Spoon.countKey k ev ≠ 0 →
      k ∈ ord ∧ (Spoon.lookupB B k).length = Spoon.countKey k ev) :
    (Spoon.round_robin 10 ord (Spoon.first_pass 10 3 ord B []).2
      (Spoon.first_pass 10 3 ord B []).1).length ≤ 10 ∧
    ∀ p, p <+: Spoon.round_robin 10 ord (Spoon.first_pass 10 3 ord B []).2
        (Spoon.first_pass 10 3 ord B []).1 →
      ∀ k, min 3 (Spoon.countKey k ev) < Spoon.countKey k p →
      ∀ k', Spoon.countKey k' ev ≠ 0 →
        min 3 (Spoon.countKey k' ev) ≤ Spoon.countKey k' p := by
  have hfple : (Spoon.first_pass 10 3 ord B []).1.length ≤ 10 :=
    Spoon.first_pass_length_le 10 3 ord B [] (by simp)
  constructor
  · exact Spoon.round_robin_length_le 10 ord
      (Spoon.bucketsSize (Spoon.first_pass 10 3 ord B []).2)
      (Spoon.first_pass 10 3 ord B []).2
      (Spoon.first_pass 10 3 ord B []).1 le_rfl hfple
  · intro p hp k hk k' hk'
    have hcount_le : ∀ k0, Spoon.countKey k0 (Spoon.first_pass 10 3 ord B []).1
        ≤ min 3 (Spoon.countKey k0 ev) := by
      intro k0
      have h1 := Spoon.first_pass_count_le 10 3 ord B [] k0 hwf hnd
      rw [show Spoon.countKey k0 ([] : List Spoon.Item) = 0 from rfl,
        Nat.zero_add] at h1
      exact h1.trans (min_le_min le_rfl (hlen k0))
    have hnp : ¬ p <+: (Spoon.first_pass 10 3 ord B []).1 := fun hpre =>
      absurd hk (not_lt.mpr ((Spoon.countKey_mono_prefix k p _ hpre).trans
        (hcount_le k)))
    have hfpp : (Spoon.first_pass 10 3 ord B []).1
        <+: Spoon.round_robin 10 ord (Spoon.first_pass 10 3 ord B []).2
          (Spoon.first_pass 10 3 ord B []).1 :=
      Spoon.round_robin_prefix 10 ord
        (Spoon.bucketsSize (Spoon.first_pass 10 3 ord B []).2)
        (Spoon.first_pass 10 3 ord B []).2
        (Spoon.first_pass 10 3 ord B []).1 le_rfl
    have hcmp : (Spoon.first_pass 10 3 ord B []).1 <+: p :=
      (List.prefix_or_prefix_of_prefix hp hfpp).resolve_left hnp
    by_cases h10 : 10 ≤ (Spoon.first_pass 10 3 ord B []).1.length
    · exfalso
      apply hnp
      have hrr : Spoon.round_robin 10 ord (Spoon.first_pass 10 3 ord B []).2
          (Spoon.first_pass 10 3 ord B []).1
          = (Spoon.first_pass 10 3 ord B []).1 := by
        rw [Spoon.round_robin]
        rw [if_pos h10]
      rwa [hrr] at hp
    · have hlt : (Spoon.first_pass 10 3 ord B []).1.length < 10 :=
        Nat.lt_of_not_le h10
      obtain ⟨hk'mem, hk'len⟩ := hlen2 k' hk'
      have hge := Spoon.first_pass_count_ge 10 3 ord B [] hwf hnd hlt k' hk'mem
      rw [show Spoon.countKey k' ([] : List Spoon.Item) = 0 from rfl,
        Nat.zero_add, hk'len] at hge
      exact hge.trans (Spoon.countKey_mono_prefix k' _ p hcmp)

/-- C1: for every multi-tool run (two or more planned tools), the output of
`_prioritize_evidence` never exceeds the cap of 10 items, and no category
bucket contributes more than `min(3, bucket size)` items before every
non-empty category bucket has contributed at least `min(3, bucket size)`
items: whenever a prefix of the output contains more than the guaranteed
minimum from some bucket, that prefix already contains the guaranteed
minimum from every non-empty bucket. -/
theorem Spoon.prioritize_multi_tool_fairness
    (evidence : List Spoon.Item) (tool_calls : List String)
    (h2 : 2 ≤ tool_calls.length) :
    (Spoon.prioritize_evidence evidence tool_calls).length ≤ 10 ∧
    ∀ p, p <+: Spoon.prioritize_evidence evidence tool_calls →
      ∀ k, min 3 (Spoon.countKey k evidence) < Spoon.countKey k p →
      ∀ k', Spoon.countKey k' evidence ≠ 0 →
        min 3 (Spoon.countKey k' evidence) ≤ Spoon.countKey k' p := by
  by_cases hne : evidence = []
  · subst hne
    constructor
    · simp [Spoon.prioritize_evidence]
    · intro p hp k hk k' hk'
      exfalso
      simp only [Spoon.prioritize_evidence, if_pos rfl] at hp
      have hp0 : p = [] := List.prefix_nil.mp hp
      subst hp0
      simp [Spoon.countKey] at hk
  · have hle : ¬ tool_calls.length ≤ 1 := by omega
    have hout : Spoon.prioritize_evidence evidence tool_calls
        = Spoon.round_robin 10
            (Spoon.ordering_of tool_calls
              (((Spoon.buckets_of evidence).map
                (fun p => (p.1, Spoon.sortByDistance p.2))).map (fun p => p.1)))
            (Spoon.first_pass 10 3
              (Spoon.ordering_of tool_calls
                (((Spoon.buckets_of evidence).map
                  (fun p => (p.1, Spoon.sortByDistance p.2))).map (fun p => p.1)))
              ((Spoon.buckets_of evidence).map
                (fun p => (p.1, Spoon.sortByDistance p.2))) []).2
            (Spoon.first_pass 10 3
              (Spoon.ordering_of tool_calls
                (((Spoon.buckets_of evidence).map
                  (fun p => (p.1, Spoon.sortByDistance p.2))).map (fun p => p.1)))
              ((Spoon.buckets_of evidence).map
                (fun p => (p.1, Spoon.sortByDistance p.2))) []).1 := by
      simp only [Spoon.prioritize_evidence]
      rw [if_neg hne, if_neg hle]
    rw [hout, Spoon.sorted_buckets_keys, Spoon.sorted_buckets_eq]
    refine Spoon.fairness_core evidence
      (Spoon.ordering_of tool_calls (Spoon.bucketKeys evidence))
      ((Spoon.bucketKeys evidence).map
        (fun k => (k, Spoon.sortByDistance
          (evidence.filter (fun x => Spoon.bucket_key x = k)))))
      ?_ ?_ ?_ ?_
    · intro p hp x hx
      obtain ⟨k, hk, rfl⟩ := List.mem_map.mp hp
      have hx' : x ∈ evidence.filter (fun y => Spoon.bucket_key y = k) :=
        ((Spoon.sortByDistance_perm _).mem_iff).mp hx
      exact of_decide_eq_true (List.mem_filter.mp hx').2
    · simp only [Spoon.ordering_of]
      exact Spoon.insKeys_nodup (Spoon.bucketKeys evidence) _
        (Spoon.toolOrdering_nodup tool_calls [] List.nodup_nil)
    · intro k
      rw [Spoon.lookupB_map_keys]
      by_cases hk : k ∈ Spoon.bucketKeys evidence
      · rw [if_pos hk]
        exact le_of_eq ((Spoon.sortByDistance_perm _).length_eq)
      · rw [if_neg hk]
        simp
    · intro k hk
      have hmem := Spoon.mem_bucketKeys_of_countKey evidence k hk
      constructor
      · simp only [Spoon.ordering_of]
        exact (Spoon.insKeys_mem k (Spoon.bucketKeys evidence) _).mpr (Or.inr hmem)
      · rw [Spoon.lookupB_map_keys, if_pos hmem]
        exact (Spoon.sortByDistance_perm _).length_eq

theorem Spoon.prioritize_multi_tool_fairness_witness :
    2 ≤ (["policy_txt_lookup", "ops_txt_lookup"] : List String).length ∧
    (Spoon.prioritize_evidence Spoon.tripleSameFile
      ["policy_txt_lookup", "ops_txt_lookup"]).length ≤ 10 :=
  ⟨by decide,
    (Spoon.prioritize_multi_tool_fairness Spoon.tripleSameFile
      ["policy_txt_lookup", "ops_txt_lookup"] (by decide)).1⟩

theorem Spoon.call_chain_none (env : Spoon.Env)
    (hfail : ∀ pref msgs c p, env.chat pref msgs = Spoon.ChatOutcome.ok c p →
      PyStr.trim (c.getD "") = "") :
    ∀ (prefs : List Spoon.ProviderPreference) (msgs : List Spoon.Msg),
      Spoon.call_chain env msgs prefs = none := by
  intro prefs
  induction prefs with
  | nil => intro msgs; rfl
  | cons pref rest ih =>
    intro msgs
    simp only [Spoon.call_chain]
    cases hc : env.chat pref msgs with
    | exn => exact ih msgs
    | ok c p =>
      dsimp only
      rw [if_pos (hfail pref msgs c p hc)]
      exact ih msgs

theorem Spoon.call_llm_none (env : Spoon.Env)
    (hfail : ∀ pref msgs c p, env.chat pref msgs = Spoon.ChatOutcome.ok c p →
      PyStr.trim (c.getD "") = "") :
    ∀ (msgs : List Spoon.Msg) (purpose : String),
      Spoon.call_llm env msgs purpose = none := by
  intro msgs purpose
  simp only [Spoon.call_llm]
  cases hh : env.hasLLM with
  | false => simp
  | true => simp [Spoon.call_chain_none env hfail]

theorem Spoon.summarize_none (env : Spoon.Env)
    (hfail : ∀ pref msgs c p, env.chat pref msgs = Spoon.ChatOutcome.ok c p →
      PyStr.trim (c.getD "") = "") :
    ∀ (uq : String) (ev : List Spoon.Item) (i : String),
      Spoon.summarize_with_llm env uq ev i = (none, none, "snippet") := by
  intro uq ev i
  simp only [Spoon.summarize_with_llm]
  by_cases h1 : env.hasLLM = false ∨ ev = []
  · rw [if_pos h1]
  · rw [if_neg h1]
    split
    · rfl
    · rw [Spoon.call_llm_none env hfail]

theorem Spoon.suggest_followups_none (env : Spoon.Env)
    (hfail : ∀ pref msgs c p, env.chat pref msgs = Spoon.ChatOutcome.ok c p →
      PyStr.trim (c.getD "") = "") :
    ∀ (uq : String), Spoon.suggest_followups_llm env uq = none := by
  intro uq
  simp only [Spoon.suggest_followups_llm]
  by_cases h1 : env.hasLLM = false
  · rw [if_pos h1]
  · rw [if_neg h1]
    rw [Spoon.call_llm_none env hfail]
    rfl

theorem Spoon.synthesize_none_iff (uq : String) (ev : List Spoon.Item)
    (i : String) :
    Spoon.synthesize_response uq ev i = none ↔
      Spoon.synthLines (ev.take 2) 1 = [] := by
  by_cases h : ev = []
  · subst h
    simp [Spoon.synthesize_response, Spoon.synthLines]
  · by_cases hl : Spoon.synthLines (ev.take 2) 1 = []
    · simp [Spoon.synthesize_response, h, hl]
    · simp [Spoon.synthesize_response, h, hl]

set_option maxRecDepth 4000 in
/-- C3 counterexample: in `envAllFailEmpty` every provider call raises, the
aggregated prioritized evidence is non-empty (one policy item), yet the run
produces no snippet answer — the deterministic snippet path additionally
requires a non-empty stripped content among the first two prioritized items,
so "whenever the prioritized evidence list is non-empty" is not the right
condition. -/
theorem Spoon.snippet_needs_nonempty_snippet :
    (∀ pref msgs, Spoon.envAllFailEmpty.chat pref msgs = Spoon.ChatOutcome.exn) ∧
    Spoon.run_prioritized Spoon.envAllFailEmpty "q" 5 false ≠ [] ∧
    (Spoon.run Spoon.envAllFailEmpty "q" "u" 5 false).responseText = none :=
  ⟨fun _ _ => rfl, by decide, by decide⟩

/-- C3 (amended): when the service is enabled and every preference in the
fallback chain either raises or returns content that strips to the empty
string, `_call_llm` returns `(None, None)` whatever the messages; the
synthesizer returns `None` exactly when the first two prioritized items
render no non-empty stripped snippet line (mere non-emptiness of the
prioritized list is not enough); the run then returns the deterministic
snippet answer with answer mode `snippet-fallback` when such a line exists,
and otherwise the structured no-answer payload carrying the detected intent,
the tool runs, the rewritten query when rewriting was requested, and no
suggestions and no answer text. -/
theorem Spoon.fallback_exhaustion_behavior
    (env : Spoon.Env) (uq un : String) (tk : Nat) (rw : Bool)
    (henabled : env.enabled = true)
    (hfail : ∀ pref msgs c p, env.chat pref msgs = Spoon.ChatOutcome.ok c p →
      PyStr.trim (c.getD "") = "") :
    (∀ msgs purpose, Spoon.call_llm env msgs purpose = none) ∧
    (∀ uq2 ev i, Spoon.synthesize_response uq2 ev i = none ↔
      Spoon.synthLines (ev.take 2) 1 = []) ∧
    (match Spoon.synthesize_response uq (Spoon.run_prioritized env uq tk rw)
        (Spoon.run_intent_arg env uq tk rw) with
      | some r =>
        (Spoon.run env uq un tk rw).responseText = some r ∧
        (Spoon.run env uq un tk rw).answerMode = some "snippet-fallback"
      | none =>
        Spoon.run env uq un tk rw = Spoon.RunOutcome.noAnswer
          (Spoon.run_intent env uq rw)
          (Spoon.run_collected env uq tk rw).2.2
          (if rw then some (Spoon.run_rewritten env uq rw).1 else none)
          none) := by
  refine ⟨Spoon.call_llm_none env hfail, Spoon.synthesize_none_iff, ?_⟩
  have hnotdis : ¬(env.enabled = false) := by rw [henabled]; simp
  have hsum := Spoon.summarize_none env hfail uq
    (Spoon.run_prioritized env uq tk rw) (Spoon.run_intent_arg env uq tk rw)
  have hsug := Spoon.suggest_followups_none env hfail uq
  cases hsyn : Spoon.synthesize_response uq (Spoon.run_prioritized env uq tk rw)
      (Spoon.run_intent_arg env uq tk rw) with
  | none =>
    simp only [Spoon.run, if_neg hnotdis, hsum, hsyn, hsug]
    rfl
  | some r =>
    simp only [Spoon.run, if_neg hnotdis, hsum, hsyn]
    exact ⟨rfl, rfl⟩

theorem Spoon.fallback_exhaustion_behavior_witness :
    Spoon.envAllFailContent.enabled = true ∧
    Spoon.call_llm Spoon.envAllFailContent [] "purpose-x" = none :=
  ⟨rfl,
    (Spoon.fallback_exhaustion_behavior Spoon.envAllFailContent "q" "u" 5 false
      rfl (fun _ _ _ _ h => Spoon.ChatOutcome.noConfusion h)).1 [] "purpose-x"⟩

theorem Spoon.prioritize_eval (ev : List Spoon.Item) (tc : List String)
    (hne : ¬ ev = []) (h2 : ¬ tc.length ≤ 1)
    (hstop : ¬ 10 ≤ (Spoon.first_pass 10 3
      (Spoon.ordering_of tc
        (((Spoon.buckets_of ev).map
          (fun p => (p.1, Spoon.sortByDistance p.2))).map (fun p => p.1)))
      ((Spoon.buckets_of ev).map (fun p => (p.1, Spoon.sortByDistance p.2)))
      []).1.length)
    (hrr : (Spoon.rr_once 10
      (Spoon.ordering_of tc
        (((Spoon.buckets_of ev).map
          (fun p => (p.1, Spoon.sortByDistance p.2))).map (fun p => p.1)))
      (Spoon.first_pass 10 3
        (Spoon.ordering_of tc
          (((Spoon.buckets_of ev).map
            (fun p => (p.1, Spoon.sortByDistance p.2))).map (fun p => p.1)))
        ((Spoon.buckets_of ev).map (fun p => (p.1, Spoon.sortByDistance p.2)))
        []).2
      (Spoon.first_pass 10 3
        (Spoon.ordering_of tc
          (((Spoon.buckets_of ev).map
            (fun p => (p.1, Spoon.sortByDistance p.2))).map (fun p => p.1)))
        ((Spoon.buckets_of ev).map (fun p => (p.1, Spoon.sortByDistance p.2)))
        []).1 false).2.2 = false) :
    Spoon.prioritize_evidence ev tc
      = (Spoon.rr_once 10
        (Spoon.ordering_of tc
          (((Spoon.buckets_of ev).map
            (fun p => (p.1, Spoon.sortByDistance p.2))).map (fun p => p.1)))
        (Spoon.first_pass 10 3
          (Spoon.ordering_of tc
            (((Spoon.buckets_of ev).map
              (fun p => (p.1, Spoon.sortByDistance p.2))).map (fun p => p.1)))
          ((Spoon.buckets_of ev).map (fun p => (p.1, Spoon.sortByDistance p.2)))
          []).2
        (Spoon.first_pass 10 3
          (Spoon.ordering_of tc
            (((Spoon.buckets_of ev).map
              (fun p => (p.1, Spoon.sortByDistance p.2))).map (fun p => p.1)))
          ((Spoon.buckets_of ev).map (fun p => (p.1, Spoon.sortByDistance p.2)))
          []).1 false).2.1 := by
  simp only [Spoon.prioritize_evidence]
  rw [if_neg hne, if_neg h2]
  rw [Spoon.round_robin, if_neg hstop]
  exact dif_neg (fun hx => absurd (hrr.symm.trans hx) (by decide))

set_option maxRecDepth 8000 in
/-- C4: for the run of the two-tool stub scenario (query about the WFH policy
and a failed deploy, `envTwoTools` plans both tools, each returning one stub
result of its own category, with a deterministic stub provider), the success
metadata lists exactly `["policy_txt_lookup", "ops_txt_lookup"]` in that
order, the answer mode lies in `{llm-summary, snippet}`, and the response is
non-empty. -/
theorem Spoon.two_tool_stub_scenario :
    (Spoon.run Spoon.envTwoTools
      "What is the WFH policy and how do I roll back a failed deploy?" "u" 5
      false).toolCallsMeta = some ["policy_txt_lookup", "ops_txt_lookup"] ∧
    ((Spoon.run Spoon.envTwoTools
      "What is the WFH policy and how do I roll back a failed deploy?" "u" 5
      false).answerMode = some "llm-summary" ∨
     (Spoon.run Spoon.envTwoTools
      "What is the WFH policy and how do I roll back a failed deploy?" "u" 5
      false).answerMode = some "snippet") ∧
    ∃ r, (Spoon.run Spoon.envTwoTools
      "What is the WFH policy and how do I roll back a failed deploy?" "u" 5
      false).responseText = some r ∧ r ≠ "" := by
  have hpri : Spoon.prioritize_evidence
      (Spoon.run_collected Spoon.envTwoTools
        "What is the WFH policy and how do I roll back a failed deploy?" 5
        false).1
      (Spoon.run_collected Spoon.envTwoTools
        "What is the WFH policy and how do I roll back a failed deploy?" 5
        false).2.1
      = [⟨"WFH: allowed two days a week.",
          ⟨some "policy", some "policy_txt_lookup", some (1 : ℚ),
            some "hr.md", none, some "wfh", none⟩⟩,
         ⟨"Rollback: revert the release tag.",
          ⟨some "ops", some "ops_txt_lookup", some (2 : ℚ),
            some "runbook.md", none, some "rollback", none⟩⟩] :=
    (Spoon.prioritize_eval _ _ (by decide) (by decide) (by decide)
      (by decide)).trans (by decide)
  have hia : Spoon.run_intent_arg Spoon.envTwoTools
      "What is the WFH policy and how do I roll back a failed deploy?" 5 false
      = "spoon-graph" := by decide
  have hs : Spoon.summarize_with_llm Spoon.envTwoTools
      "What is the WFH policy and how do I roll back a failed deploy?"
      [⟨"WFH: allowed two days a week.",
        ⟨some "policy", some "policy_txt_lookup", some (1 : ℚ),
          some "hr.md", none, some "wfh", none⟩⟩,
       ⟨"Rollback: revert the release tag.",
        ⟨some "ops", some "ops_txt_lookup", some (2 : ℚ),
          some "runbook.md", none, some "rollback", none⟩⟩] "spoon-graph"
      = (some "stub answer\n\nNguồn:\n- hr.md › wfh\n- runbook.md › rollback",
         some "stub-provider", "llm-summary") := by decide
  have hdis : ¬(Spoon.envTwoTools.enabled = false) := by decide
  simp only [Spoon.run, Spoon.run_prioritized]
  rw [if_neg hdis, hpri, hia, hs]
  dsimp only
  exact ⟨by decide, Or.inl rfl,
    ⟨"stub answer\n\nNguồn:\n- hr.md › wfh\n- runbook.md › rollback", rfl,
      by decide⟩⟩
